/-
Verification of the SourceRecord capture-integrity-chain and proof-pack
subsystem against its natural-language specification.

The Python source is shallowly embedded: pure functions become Lean
functions, bytes become `List Nat` (each element a byte value), machine
words are `Nat` reduced `% 2^32`, fallible code returns `Except`/`Option`,
and the database session is passed explicitly as a value.

Embedded units:
  * `hashlib.sha256(...).hexdigest()`        -> `sha256hex` (FIPS 180-4,
    the semantics of the library call used by the code)
  * `app/routers/captures.py`                -> `compute_chain_sha256`,
    `create_capture`
  * `app/services/normalize.py`              -> `canonicalize_url` (with
    `urllib.parse.urlsplit` / `urlunsplit` embedded as `urlsplit` /
    `urlunsplit`)
  * `src/proofpack/builder.py`               -> `build_proof_pack` and the
    self-contained verifier script `verify_py_content` (its algorithm is
    embedded as `verifyMain` / `chainPhase` / `fileLoop`)
-/
import Mathlib

set_option maxRecDepth 10000

namespace SourceRecord

/-! ## Bytes, UTF-8 and SHA-256

`hashlib.sha256` over a byte string, per FIPS 180-4.  Bytes are `List Nat`;
32-bit words are `Nat` taken `% 2^32`. -/

/-- `2^32`, the word modulus. -/
def w32 : Nat := 4294967296

/-- `2^32 - 1`, the all-ones 32-bit mask (used for bitwise complement). -/
def mask32 : Nat := 4294967295

/-- Right-rotation of a 32-bit word by `n`. -/
def rotr32 (n x : Nat) : Nat := ((x >>> n) ||| (x <<< (32 - n))) % w32

/-- FIPS 180-4 sigma-0 (message schedule). -/
def ssig0 (x : Nat) : Nat := (rotr32 7 x) ^^^ (rotr32 18 x) ^^^ (x >>> 3)

/-- FIPS 180-4 sigma-1 (message schedule). -/
def ssig1 (x : Nat) : Nat := (rotr32 17 x) ^^^ (rotr32 19 x) ^^^ (x >>> 10)

/-- FIPS 180-4 Sigma-0 (compression). -/
def bsig0 (x : Nat) : Nat := (rotr32 2 x) ^^^ (rotr32 13 x) ^^^ (rotr32 22 x)

/-- FIPS 180-4 Sigma-1 (compression). -/
def bsig1 (x : Nat) : Nat := (rotr32 6 x) ^^^ (rotr32 11 x) ^^^ (rotr32 25 x)

/-- The 64 SHA-256 round constants. -/
def shaK : List Nat :=
  [1116352408, 1899447441, 3049323471, 3921009573, 961987163, 1508970993,
   2453635748, 2870763221, 3624381080, 310598401, 607225278, 1426881987,
   1925078388, 2162078206, 2614888103, 3248222580, 3835390401, 4022224774,
   264347078, 604807628, 770255983, 1249150122, 1555081692, 1996064986,
   2554220882, 2821834349, 2952996808, 3210313671, 3336571891, 3584528711,
   113926993, 338241895, 666307205, 773529912, 1294757372, 1396182291,
   1695183700, 1986661051, 2177026350, 2456956037, 2730485921, 2820302411,
   3259730800, 3345764771, 3516065817, 3600352804, 4094571909, 275423344,
   430227734, 506948616, 659060556, 883997877, 958139571, 1322822218,
   1537002063, 1747873779, 1955562222, 2024104815, 2227730452, 2361852424,
   2428436474, 2756734187, 3204031479, 3329325298]

/-- The 8-word SHA-256 working state. -/
structure ShaState where
  a : Nat
  b : Nat
  c : Nat
  d : Nat
  e : Nat
  f : Nat
  g : Nat
  h : Nat
deriving Repr, DecidableEq

/-- The SHA-256 initial hash value. -/
def shaInit : ShaState :=
  ⟨1779033703, 3144134277, 1013904242, 2773480762,
   1359893119, 2600822924, 528734635, 1541459225⟩

/-- One SHA-256 round on the working state with round constant `k` and
schedule word `w`. -/
def shaRound (st : ShaState) (k w : Nat) : ShaState :=
  let s1 := bsig1 st.e
  let ch := (st.e &&& st.f) ^^^ ((st.e ^^^ mask32) &&& st.g)
  let t1 := (st.h + s1 + ch + k + w) % w32
  let s0 := bsig0 st.a
  let maj := (st.a &&& st.b) ^^^ (st.a &&& st.c) ^^^ (st.b &&& st.c)
  let t2 := (s0 + maj) % w32
  ⟨(t1 + t2) % w32, st.a, st.b, st.c, (st.d + t1) % w32, st.e, st.f, st.g⟩

/-- Big-endian rendering of `v` as `n` bytes. -/
def beBytes : Nat → Nat → List Nat
  | 0, _ => []
  | n + 1, v => beBytes n (v / 256) ++ [v % 256]

/-- Group a byte list into big-endian 32-bit words. -/
def toWords : List Nat → List Nat
  | b0 :: b1 :: b2 :: b3 :: rest =>
      (((b0 * 256 + b1) * 256 + b2) * 256 + b3) :: toWords rest
  | _ => []

/-- Extend a 16-word block to the 64-word message schedule (`n` extension
steps remain). -/
def extendSchedule : Nat → List Nat → List Nat
  | 0, w => w
  | n + 1, w =>
      let i := w.length
      let nw := (ssig1 (w.getD (i - 2) 0) + w.getD (i - 7) 0 +
                 ssig0 (w.getD (i - 15) 0) + w.getD (i - 16) 0) % w32
      extendSchedule n (w ++ [nw])

/-- Compress one 64-byte chunk into the running hash state. -/
def shaCompress (hs : ShaState) (chunk : List Nat) : ShaState :=
  let ws := extendSchedule 48 (toWords chunk)
  let st := (shaK.zip ws).foldl (fun s kw => shaRound s kw.1 kw.2) hs
  ⟨(hs.a + st.a) % w32, (hs.b + st.b) % w32, (hs.c + st.c) % w32,
   (hs.d + st.d) % w32, (hs.e + st.e) % w32, (hs.f + st.f) % w32,
   (hs.g + st.g) % w32, (hs.h + st.h) % w32⟩

/-- SHA-256 padding: append `0x80`, zero bytes to 56 mod 64, then the
64-bit big-endian bit length. -/
def shaPad (msg : List Nat) : List Nat :=
  msg ++ 128 :: List.replicate ((119 - msg.length % 64) % 64) 0 ++
    beBytes 8 (8 * msg.length)

/-- Split into 64-byte chunks; `fuel` bounds the recursion and is
instantiated with the list length. -/
def chunksGo : Nat → List Nat → List (List Nat)
  | _, [] => []
  | 0, l => [l]
  | n + 1, l => l.take 64 :: chunksGo n (l.drop 64)

/-- Split a (padded) byte list into 64-byte chunks. -/
def chunks64 (l : List Nat) : List (List Nat) := chunksGo l.length l

/-- SHA-256 of a byte string, as 32 bytes. -/
def sha256 (msg : List Nat) : List Nat :=
  let fin := (chunks64 (shaPad msg)).foldl shaCompress shaInit
  beBytes 4 fin.a ++ beBytes 4 fin.b ++ beBytes 4 fin.c ++ beBytes 4 fin.d ++
  beBytes 4 fin.e ++ beBytes 4 fin.f ++ beBytes 4 fin.g ++ beBytes 4 fin.h

/-- Lowercase hex digit for a value `< 16`. -/
def hexDigit (n : Nat) : Char :=
  if n < 10 then Char.ofNat (48 + n) else Char.ofNat (87 + n)

/-- Two lowercase hex digits of one byte. -/
def byteHex (b : Nat) : List Char := [hexDigit (b / 16 % 16), hexDigit (b % 16)]

/-- Byte list rendered as a lowercase hex string. -/
def bytesToHex (bs : List Nat) : String := String.mk ((bs.map byteHex).flatten)

/-- `hashlib.sha256(msg).hexdigest()`: SHA-256 rendered as lowercase hex. -/
def sha256hex (msg : List Nat) : String := bytesToHex (sha256 msg)

/-- UTF-8 encoding of a single character. -/
def utf8Char (c : Char) : List Nat :=
  let n := c.toNat
  if n < 128 then [n]
  else if n < 2048 then [192 ||| (n >>> 6), 128 ||| (n &&& 63)]
  else if n < 65536 then
    [224 ||| (n >>> 12), 128 ||| ((n >>> 6) &&& 63), 128 ||| (n &&& 63)]
  else
    [240 ||| (n >>> 18), 128 ||| ((n >>> 12) &&& 63),
     128 ||| ((n >>> 6) &&& 63), 128 ||| (n &&& 63)]

/-- `str.encode("utf-8")`: UTF-8 encoding of a string. -/
def utf8Encode (s : String) : List Nat := (s.toList.map utf8Char).flatten

/-- `sha256_hex` from `app/routers/captures.py` (and identically
`app/services/fetcher.py`): SHA-256 lowercase hex digest of a byte
string. -/
def sha256_hex (b : List Nat) : String := sha256hex b

example : sha256hex [] =
    "e3b0c44298fc1c149afbf4c8996fb92427ae41e4649b934ca495991b7852b855" := by
  decide

example : sha256hex (utf8Encode "abc") =
    "ba7816bf8f01cfea414140de5dae2223b00361a396177a9cb410ff61f20015ad" := by
  decide

/-! ### Generic facts about the digest rendering -/

/-- The sixteen lowercase hex digit characters. -/
def lowerHexChars : List Char :=
  ['a', 'b', 'c', 'd', 'e', 'f',
   '0', '1', '2', '3', '4', '5', '6', '7', '8', '9']

theorem beBytes_length (n v : Nat) : (beBytes n v).length = n := by
  induction n generalizing v with
  | zero => rfl
  | succ k ih => simp [beBytes, ih]

theorem sha256_length (msg : List Nat) : (sha256 msg).length = 32 := by
  simp [sha256, beBytes_length]

theorem bytesToHex_length (bs : List Nat) :
    (bytesToHex bs).length = 2 * bs.length := by
  induction bs with
  | nil => rfl
  | cons b t ih =>
      simp only [bytesToHex, List.map_cons, List.flatten_cons, String.length_mk,
        List.length_append] at ih ⊢
      simp [byteHex] at ih ⊢
      omega

/-- Every digest rendered by `sha256hex` has exactly 64 characters. -/
theorem sha256hex_length (msg : List Nat) : (sha256hex msg).length = 64 := by
  simp [sha256hex, bytesToHex_length, sha256_length]

theorem hexDigit_mem_lowerHexChars (k : Nat) (h : k < 16) :
    hexDigit k ∈ lowerHexChars := by
  interval_cases k <;> decide

theorem bytesToHex_lower (bs : List Nat) :
    ∀ c ∈ (bytesToHex bs).toList, c ∈ lowerHexChars := by
  induction bs with
  | nil => intro c hc; simp [bytesToHex] at hc
  | cons b t ih =>
      intro c hc
      simp only [bytesToHex, List.map_cons, List.flatten_cons,
        String.toList, String.data, List.mem_append] at hc
      rcases hc with hc | hc
      · simp only [byteHex, List.mem_cons, List.not_mem_nil, or_false] at hc
        rcases hc with rfl | rfl
        · exact hexDigit_mem_lowerHexChars _ (Nat.mod_lt _ (by norm_num))
        · exact hexDigit_mem_lowerHexChars _ (Nat.mod_lt _ (by norm_num))
      · exact ih c (by simpa [bytesToHex] using hc)

/-- Every digest rendered by `sha256hex` is lowercase hex. -/
theorem sha256hex_lower (msg : List Nat) :
    ∀ c ∈ (sha256hex msg).toList, c ∈ lowerHexChars :=
  bytesToHex_lower _

/-! ## The chain digest (Hash Engine)

`compute_chain_sha256` from `app/routers/captures.py`, and the identical
recomputation inside the builder-embedded verifier script
(`verify_py_content` in `src/proofpack/builder.py`, the `chain_input` /
`computed_chain` lines). -/

/-- Python `"|".join(list)`. -/
def pyJoin (sep : String) : List String → String
  | [] => ""
  | [x] => x
  | x :: xs => x ++ sep ++ pyJoin sep xs

/-- Python truthiness `x or ""` applied to an optional string: both an
absent value and an empty string become the empty string. -/
def pyOrEmpty : Option String → String
  | none => ""
  | some s => if s = "" then "" else s

/-- `compute_chain_sha256` from `app/routers/captures.py`: joins the six
fields with `"|"` (absent values as `""`), UTF-8 encodes, SHA-256. -/
def compute_chain_sha256 (prev_capture_id prev_chain : Option String)
    (raw_sha norm_sha captured_at_iso canonical_url : String) : String :=
  let base := pyJoin "|"
    [pyOrEmpty prev_capture_id, pyOrEmpty prev_chain, raw_sha, norm_sha,
     captured_at_iso, canonical_url]
  sha256_hex (utf8Encode base)

/-- The chain recomputation performed by the builder-embedded verifier
script (`chain_input = "|".join([...]); computed_chain =
hashlib.sha256(chain_input.encode("utf-8")).hexdigest()` in
`verify_py_content`). -/
def verifyComputedChain (prev_capture_id prev_chain : Option String)
    (raw_sha norm_sha captured_at_iso canonical_url : String) : String :=
  let chain_input := pyJoin "|"
    [pyOrEmpty prev_capture_id, pyOrEmpty prev_chain, raw_sha, norm_sha,
     captured_at_iso, canonical_url]
  sha256hex (utf8Encode chain_input)

/-- Modelled from the spec's words (§4.3), for the refinement claim C1
only: concatenate the six fields in this exact order using a single `|`
separator, substituting the empty string for any absent value, UTF-8
encode, and digest with SHA-256 (lowercase hex). -/
def chainDigestSpec (prevCaptureId prevChainDigest : Option String)
    (rawDigest normDigest capturedAtISO canonicalURL : String) : String :=
  sha256hex (utf8Encode
    (prevCaptureId.getD "" ++ "|" ++ prevChainDigest.getD "" ++ "|" ++
     rawDigest ++ "|" ++ normDigest ++ "|" ++ capturedAtISO ++ "|" ++
     canonicalURL))

theorem pyOrEmpty_eq_getD (o : Option String) : pyOrEmpty o = o.getD "" := by
  cases o with
  | none => rfl
  | some s =>
      by_cases h : s = "" <;> simp [pyOrEmpty, h]

/-- C1: the chain digest is SHA-256 (lowercase hex, 64 characters) of the
UTF-8 encoding of the six fields joined in the exact order
prev-capture-id | prev-chain-digest | raw digest | normalized digest |
captured-at | canonical URL, with `""` substituted for absent values
(`chainDigestSpec` is written from the spec's words; the equation shows
`compute_chain_sha256` refines it), and the builder-embedded verifier
script recomputes the digest with exactly the same formula
(`verifyComputedChain`).  Purity of the digest in its six inputs is
intrinsic to the embedding: both sides are Lean functions, so identical
inputs give identical digests definitionally. -/
theorem C1_chain_digest_formula
    (pid pch : Option String) (raw norm iso url : String) :
    compute_chain_sha256 pid pch raw norm iso url =
      chainDigestSpec pid pch raw norm iso url ∧
    verifyComputedChain pid pch raw norm iso url =
      compute_chain_sha256 pid pch raw norm iso url ∧
    (compute_chain_sha256 pid pch raw norm iso url).length = 64 ∧
    (∀ c ∈ (compute_chain_sha256 pid pch raw norm iso url).toList,
      c ∈ lowerHexChars) := by
  refine ⟨?_, rfl, sha256hex_length _, sha256hex_lower _⟩
  simp only [compute_chain_sha256, chainDigestSpec, sha256_hex, pyJoin,
    pyOrEmpty_eq_getD, String.append_assoc]

/-! ## The builder-embedded verifier script

Embedding of `verify_py_content` (the self-contained `verify.py` script
written into every proof pack by `src/proofpack/builder.py`).  `print`
output becomes a `List String` of lines and `sys.exit(n)` becomes a `Nat`
exit code.  `json.loads` is not embedded: the verifier model receives the
parsed manifest `files` list and the parsed timeline `items` list
directly, with `Option` fields mirroring `dict.get` (absent or JSON
`null` becomes `none`), and a lookup `fs : String → Option (List Nat)`
mirroring `Path.exists` / `open(...).read()`. -/

/-- One entry of `manifest.json`'s `files` list. -/
structure FileEntry where
  path : String
  sha256 : String
deriving DecidableEq, Repr

/-- One item of `timeline.json`'s `items` list, each field as read by
`item.get(...)` (absent or `null` is `none`). -/
structure TItem where
  id : Option String
  prev_capture_id : Option String
  captured_at : Option String
  canonical_url : Option String
  raw_bytes_sha256 : Option String
  normalized_text_sha256 : Option String
  chain_sha256 : Option String
deriving DecidableEq, Repr

/-- Python truthiness of an optional string (`if not item_id`): `None`
and the empty string are falsy. -/
def pyTruthyStr : Option String → Bool
  | none => false
  | some s => s ≠ ""

/-- Python `str(...)` as used by an f-string on an optional string:
`None` prints as `"None"`. -/
def pyStr : Option String → String
  | none => "None"
  | some s => s

/-- The per-file loop of the embedded verifier.  Result `(out, some c)`
means the script printed `out` and exited with code `c`; `(out, none)`
means the loop completed (printing `PASS: all files verified`) and the
script continues to the timeline phase. -/
def fileLoop (fs : String → Option (List Nat)) :
    List FileEntry → List String × Option Nat
  | [] => (["PASS: all files verified"], none)
  | e :: rest =>
    match fs e.path with
    | none => (["FAIL: " ++ e.path ++ " not found"], some 1)
    | some bytes =>
        if sha256hex bytes ≠ e.sha256 then
          (["FAIL: " ++ e.path ++ " hash mismatch"], some 1)
        else fileLoop fs rest

/-- The chain-replay loop of the embedded verifier (`for idx, item in
enumerate(items)`), carrying the running index, the previous item's `id`
and the previous item's stored `chain_sha256` (`prev_chain`). -/
def chainLoop : List TItem → Nat → Option String → Option String →
    List String × Nat
  | [], _, _, _ => (["PASS: timeline capture hash chain verified"], 0)
  | item :: rest, idx, prevId, prevChain =>
    if ¬ pyTruthyStr item.id then
      (["FAIL: item[" ++ toString idx ++ "] missing id"], 1)
    else if item.captured_at = none then
      (["FAIL: item[" ++ toString idx ++ "] missing captured_at"], 1)
    else if item.canonical_url = none then
      (["FAIL: item[" ++ toString idx ++ "] missing canonical_url"], 1)
    else if item.raw_bytes_sha256 = none then
      (["FAIL: item[" ++ toString idx ++ "] missing raw_bytes_sha256"], 1)
    else if item.normalized_text_sha256 = none then
      (["FAIL: item[" ++ toString idx ++ "] missing normalized_text_sha256"], 1)
    else if item.chain_sha256 = none then
      (["FAIL: item[" ++ toString idx ++ "] missing chain_sha256"], 1)
    else if idx = 0 ∧ item.prev_capture_id ≠ none then
      (["FAIL: item[" ++ toString idx ++
        "] prev_capture_id should be null for first item"], 1)
    else if idx ≠ 0 ∧ item.prev_capture_id ≠ prevId then
      (["FAIL: item[" ++ toString idx ++ "] prev_capture_id " ++
        pyStr item.prev_capture_id ++ " does not match previous item id " ++
        pyStr prevId], 1)
    else
      let computed := verifyComputedChain item.prev_capture_id prevChain
        (item.raw_bytes_sha256.getD "") (item.normalized_text_sha256.getD "")
        (item.captured_at.getD "") (item.canonical_url.getD "")
      if computed ≠ item.chain_sha256.getD "" then
        (["FAIL: item[" ++ toString idx ++ "] chain_sha256 mismatch (computed " ++
          computed ++ ", expected " ++ item.chain_sha256.getD "" ++ ")"], 1)
      else chainLoop rest (idx + 1) item.id item.chain_sha256

/-- The timeline phase of the embedded verifier: an empty item list exits
0 silently (`if not items: sys.exit(0)`); if no item carries a
`chain_sha256` it prints SKIP and exits 0; otherwise it replays the
chain. -/
def chainPhase (items : List TItem) : List String × Nat :=
  if items = [] then ([], 0)
  else if ¬ items.any (fun it => it.chain_sha256.isSome) then
    (["SKIP: timeline items missing chain_sha256; not verifying chain"], 0)
  else chainLoop items 0 none none

/-- `main()` of the embedded verifier: the file phase over the manifest's
`files` list, then (only if it passed) the timeline phase.  The `Option`
arguments mirror `Path("manifest.json").exists()` /
`Path("timeline.json").exists()` plus `json.loads` of the respective
file. -/
def verifyMain (fs : String → Option (List Nat))
    (manifestFiles : Option (List FileEntry))
    (timelineItems : Option (List TItem)) : List String × Nat :=
  match manifestFiles with
  | none => (["FAIL: manifest.json not found"], 1)
  | some files =>
    match fileLoop fs files with
    | (out, some code) => (out, code)
    | (out, none) =>
      match timelineItems with
      | none => (out, 0)
      | some items =>
        let r := chainPhase items
        (out ++ r.1, r.2)

/-! ### Declarative chain validity (for the C2 characterization) -/

/-- All required fields of a timeline item are present, per the embedded
verifier's checks (`id` truthy, the other five non-null). -/
def itemFieldsOK (it : TItem) : Bool :=
  pyTruthyStr it.id && it.captured_at.isSome && it.canonical_url.isSome &&
  it.raw_bytes_sha256.isSome && it.normalized_text_sha256.isSome &&
  it.chain_sha256.isSome

/-- The predecessor-linkage condition for one item: `prev_capture_id`
must be absent at index 0 and must equal the previous item's `id`
afterwards. -/
def linkOK (it : TItem) (idx : Nat) (pid : Option String) : Bool :=
  if idx = 0 then it.prev_capture_id == none else it.prev_capture_id == pid

/-- The digest condition for one item: the stored `chain_sha256` equals
the §4.3 recomputation from the item's own fields and the previous item's
stored chain digest. -/
def chainDigestOK (it : TItem) (pch : Option String) : Bool :=
  verifyComputedChain it.prev_capture_id pch (it.raw_bytes_sha256.getD "")
    (it.normalized_text_sha256.getD "") (it.captured_at.getD "")
    (it.canonical_url.getD "") == it.chain_sha256.getD ""

/-- Declarative validity of the chain from a given loop state: every item
has its fields, the predecessor linkage holds, and every stored chain
digest recomputes. -/
def chainValidFrom : List TItem → Nat → Option String → Option String → Bool
  | [], _, _, _ => true
  | it :: rest, idx, pid, pch =>
    itemFieldsOK it && linkOK it idx pid && chainDigestOK it pch &&
    chainValidFrom rest (idx + 1) it.id it.chain_sha256

/-- The previous-item id the loop carries after consuming a list. -/
def lastIdFrom : List TItem → Option String → Option String
  | [], d => d
  | it :: rest, _ => lastIdFrom rest it.id

/-- The previous-chain digest the loop carries after consuming a list. -/
def lastChainFrom : List TItem → Option String → Option String
  | [], d => d
  | it :: rest, _ => lastChainFrom rest it.chain_sha256

theorem chainLoop_code_iff (l : List TItem) :
    ∀ idx pid pch, (chainLoop l idx pid pch).2 = 0 ↔
      chainValidFrom l idx pid pch = true := by
  induction l with
  | nil => intro idx pid pch; simp [chainLoop, chainValidFrom]
  | cons it rest ih =>
      intro idx pid pch
      rw [chainLoop, chainValidFrom]
      split_ifs with h1 h2 h3 h4 h5 h6 h7 h8
      · simp [itemFieldsOK, h2]
      · simp [itemFieldsOK, h3]
      · simp [itemFieldsOK, h4]
      · simp [itemFieldsOK, h5]
      · simp [itemFieldsOK, h6]
      · obtain ⟨h7a, h7b⟩ := h7
        simp [linkOK, h7a, h7b]
      · obtain ⟨h8a, h8b⟩ := h8
        simp [linkOK, h8a, h8b]
      · push_neg at h7 h8
        have hf : itemFieldsOK it = true := by
          simp [itemFieldsOK, Option.isSome_iff_ne_none, h1, h2, h3, h4, h5, h6]
        have hl : linkOK it idx pid = true := by
          by_cases hidx : idx = 0
          · simp [linkOK, hidx, h7 hidx]
          · simp [linkOK, hidx, h8 hidx]
        simp only [ne_eq]
        split_ifs with h9
        · have hd : chainDigestOK it pch = true := by
            simp [chainDigestOK, h9]
          rw [ih]
          simp [hf, hl, hd]
        · simp [chainDigestOK, h9]
      · simp only [Bool.not_eq_true] at h1
        simp [itemFieldsOK, h1]

theorem chainLoop_step (it : TItem) (l : List TItem) (idx : Nat)
    (pid pch : Option String) (hf : itemFieldsOK it = true)
    (hlink : linkOK it idx pid = true)
    (hdig : chainDigestOK it pch = true) :
    chainLoop (it :: l) idx pid pch =
      chainLoop l (idx + 1) it.id it.chain_sha256 := by
  simp only [itemFieldsOK, Bool.and_eq_true, Option.isSome_iff_ne_none] at hf
  obtain ⟨⟨⟨⟨⟨h1, h2⟩, h3⟩, h4⟩, h5⟩, h6⟩ := hf
  simp only [chainDigestOK, beq_iff_eq] at hdig
  by_cases hidx : idx = 0
  · subst hidx
    simp [linkOK] at hlink
    rw [hlink] at hdig
    rw [chainLoop]
    simp [h1, h2, h3, h4, h5, h6, hlink, hdig]
  · simp [linkOK, hidx] at hlink
    rw [hlink] at hdig
    rw [chainLoop]
    simp [hidx, h1, h2, h3, h4, h5, h6, hlink, hdig]

theorem chainLoop_append (pre : List TItem) :
    ∀ (l : List TItem) (idx : Nat) (pid pch : Option String),
      chainValidFrom pre idx pid pch = true →
      chainLoop (pre ++ l) idx pid pch =
        chainLoop l (idx + pre.length) (lastIdFrom pre pid)
          (lastChainFrom pre pch) := by
  induction pre with
  | nil => intro l idx pid pch _; simp [lastIdFrom, lastChainFrom]
  | cons it rest ih =>
      intro l idx pid pch h
      simp only [chainValidFrom, Bool.and_eq_true] at h
      obtain ⟨⟨⟨hf, hlink⟩, hdig⟩, hrest⟩ := h
      rw [List.cons_append, chainLoop_step it (rest ++ l) idx pid pch hf hlink hdig,
        ih l (idx + 1) it.id it.chain_sha256 hrest]
      simp only [lastIdFrom, lastChainFrom, List.length_cons]
      congr 1
      omega

theorem fieldsOK_chain_isSome (it : TItem) (hf : itemFieldsOK it = true) :
    it.chain_sha256.isSome = true := by
  simp only [itemFieldsOK, Bool.and_eq_true] at hf
  exact hf.2

theorem chainPhase_run (items : List TItem) (hne : items ≠ [])
    (hany : items.any (fun x => x.chain_sha256.isSome) = true) :
    chainPhase items = chainLoop items 0 none none := by
  simp [chainPhase, hne, hany]

theorem c2_first (it : TItem) (rest : List TItem)
    (hf : itemFieldsOK it = true) (hp : it.prev_capture_id ≠ none) :
    chainPhase (it :: rest) =
      (["FAIL: item[0] prev_capture_id should be null for first item"], 1) := by
  rw [chainPhase_run _ (by simp)
    (List.any_eq_true.mpr ⟨it, List.mem_cons_self it rest,
      fieldsOK_chain_isSome it hf⟩)]
  simp only [itemFieldsOK, Bool.and_eq_true, Option.isSome_iff_ne_none] at hf
  obtain ⟨⟨⟨⟨⟨h1, h2⟩, h3⟩, h4⟩, h5⟩, h6⟩ := hf
  rw [chainLoop]
  simp [h1, h2, h3, h4, h5, h6, hp]
  decide

theorem c2_link (pre : List TItem) (it : TItem) (rest : List TItem)
    (hne : pre ≠ []) (hv : chainValidFrom pre 0 none none = true)
    (hf : itemFieldsOK it = true)
    (hp : it.prev_capture_id ≠ lastIdFrom pre none) :
    chainPhase (pre ++ it :: rest) =
      (["FAIL: item[" ++ toString pre.length ++ "] prev_capture_id " ++
        pyStr it.prev_capture_id ++ " does not match previous item id " ++
        pyStr (lastIdFrom pre none)], 1) := by
  rw [chainPhase_run _ (by simp)
    (List.any_eq_true.mpr ⟨it,
      List.mem_append_right _ (List.mem_cons_self it rest),
      fieldsOK_chain_isSome it hf⟩)]
  rw [chainLoop_append pre (it :: rest) 0 none none hv]
  have hidx : 0 + pre.length ≠ 0 := by
    have := List.length_pos.mpr hne
    omega
  simp only [itemFieldsOK, Bool.and_eq_true, Option.isSome_iff_ne_none] at hf
  obtain ⟨⟨⟨⟨⟨h1, h2⟩, h3⟩, h4⟩, h5⟩, h6⟩ := hf
  rw [chainLoop]
  simp [h1, h2, h3, h4, h5, h6, hidx, hne, hp]

theorem c2_digest (pre : List TItem) (it : TItem) (rest : List TItem)
    (hv : chainValidFrom pre 0 none none = true)
    (hf : itemFieldsOK it = true)
    (hl : linkOK it pre.length (lastIdFrom pre none) = true)
    (hd : chainDigestOK it (lastChainFrom pre none) = false) :
    chainPhase (pre ++ it :: rest) =
      (["FAIL: item[" ++ toString pre.length ++ "] chain_sha256 mismatch (computed " ++
        verifyComputedChain it.prev_capture_id (lastChainFrom pre none)
          (it.raw_bytes_sha256.getD "") (it.normalized_text_sha256.getD "")
          (it.captured_at.getD "") (it.canonical_url.getD "") ++
        ", expected " ++ it.chain_sha256.getD "" ++ ")"], 1) := by
  rw [chainPhase_run _ (by simp)
    (List.any_eq_true.mpr ⟨it,
      List.mem_append_right _ (List.mem_cons_self it rest),
      fieldsOK_chain_isSome it hf⟩)]
  rw [chainLoop_append pre (it :: rest) 0 none none hv]
  simp only [itemFieldsOK, Bool.and_eq_true, Option.isSome_iff_ne_none] at hf
  obtain ⟨⟨⟨⟨⟨h1, h2⟩, h3⟩, h4⟩, h5⟩, h6⟩ := hf
  simp only [chainDigestOK, beq_eq_false_iff_ne, ne_eq] at hd
  rw [chainLoop]
  by_cases hidx : pre.length = 0
  · rw [hidx] at hl ⊢
    simp [linkOK] at hl
    rw [hl] at hd ⊢
    simp [h1, h2, h3, h4, h5, h6, hd, hidx]
  · simp [linkOK, hidx] at hl
    rw [hl] at hd ⊢
    have hidx2 : 0 + pre.length ≠ 0 := by omega
    have hne : pre ≠ [] := by
      intro h
      rw [h] at hidx
      exact hidx rfl
    simp [h1, h2, h3, h4, h5, h6, hd, hidx2, hne]

theorem c2_pass_iff (items : List TItem)
    (hany : items.any (fun x => x.chain_sha256.isSome) = true) :
    (chainPhase items).2 = 0 ↔ chainValidFrom items 0 none none = true := by
  have hne : items ≠ [] := by
    rintro rfl
    simp at hany
  rw [chainPhase_run _ hne hany, chainLoop_code_iff]

theorem c2_skip (items : List TItem) (hne : items ≠ [])
    (hall : items.all (fun x => x.chain_sha256.isNone) = true) :
    chainPhase items =
      (["SKIP: timeline items missing chain_sha256; not verifying chain"], 0) := by
  have hany : items.any (fun x => x.chain_sha256.isSome) = false := by
    rw [List.any_eq_false]
    intro x hx
    have := List.all_eq_true.mp hall x hx
    simp only [Option.isNone_iff_eq_none] at this
    simp [this]
  simp [chainPhase, hne, hany]

/-- C2 (amended): for timeline items carrying chain digests the embedded
verifier replays the chain.  (1) With all fields present, a non-null
`prev_capture_id` on the first item fails with exit 1 naming index 0.
(2) After a fully valid prefix `pre`, an item whose `prev_capture_id`
differs from the previous item's id fails with exit 1 identifying the
offending index `pre.length`.  (3) After a fully valid prefix, an item
whose stored `chain_sha256` differs from the §4.3 recomputation (that
item's own fields plus the previous item's stored chain digest) fails
with exit 1 naming computed and expected values.  (4) When some item
carries a chain digest, the replay exits 0 iff the whole chain is valid.
(5) A *non-empty* item list in which no item carries a chain digest is
skipped with an explicit SKIP report and exit 0.  (6) Amendment forced by
the counterexample: an *empty* item list exits 0 silently, with no
report. -/
theorem C2_verifier_chain_replay :
    (∀ (it : TItem) (rest : List TItem), itemFieldsOK it = true →
      it.prev_capture_id ≠ none →
      chainPhase (it :: rest) =
        (["FAIL: item[0] prev_capture_id should be null for first item"], 1)) ∧
    (∀ (pre : List TItem) (it : TItem) (rest : List TItem), pre ≠ [] →
      chainValidFrom pre 0 none none = true → itemFieldsOK it = true →
      it.prev_capture_id ≠ lastIdFrom pre none →
      chainPhase (pre ++ it :: rest) =
        (["FAIL: item[" ++ toString pre.length ++ "] prev_capture_id " ++
          pyStr it.prev_capture_id ++ " does not match previous item id " ++
          pyStr (lastIdFrom pre none)], 1)) ∧
    (∀ (pre : List TItem) (it : TItem) (rest : List TItem),
      chainValidFrom pre 0 none none = true → itemFieldsOK it = true →
      linkOK it pre.length (lastIdFrom pre none) = true →
      chainDigestOK it (lastChainFrom pre none) = false →
      chainPhase (pre ++ it :: rest) =
        (["FAIL: item[" ++ toString pre.length ++
          "] chain_sha256 mismatch (computed " ++
          verifyComputedChain it.prev_capture_id (lastChainFrom pre none)
            (it.raw_bytes_sha256.getD "") (it.normalized_text_sha256.getD "")
            (it.captured_at.getD "") (it.canonical_url.getD "") ++
          ", expected " ++ it.chain_sha256.getD "" ++ ")"], 1)) ∧
    (∀ items : List TItem,
      items.any (fun x => x.chain_sha256.isSome) = true →
      ((chainPhase items).2 = 0 ↔ chainValidFrom items 0 none none = true)) ∧
    (∀ items : List TItem, items ≠ [] →
      items.all (fun x => x.chain_sha256.isNone) = true →
      chainPhase items =
        (["SKIP: timeline items missing chain_sha256; not verifying chain"], 0)) ∧
    chainPhase [] = ([], 0) :=
  ⟨c2_first, c2_link, c2_digest, c2_pass_iff, c2_skip, rfl⟩

/-- A fully valid first timeline item used to exercise C2 concretely: its
chain digest is SHA-256 of `"||r|n|t|u"`. -/
def witItem1 : TItem :=
  ⟨some "id1", none, some "t", some "u", some "r", some "n",
   some "e89cb2e21be1cac9cd3dc64be125236736ad4a2de9b106fa9632fa5a223110f0"⟩

/-- A second item whose `prev_capture_id` does not match `witItem1`'s id. -/
def witItem2bad : TItem :=
  ⟨some "id2", some "WRONG", some "t2", some "u2", some "r2", some "n2",
   some "deadbeef"⟩

/-- A second item with correct linkage but a wrong stored chain digest. -/
def witItem2dig : TItem :=
  ⟨some "id2", some "id1", some "t2", some "u2", some "r2", some "n2",
   some "deadbeef"⟩

/-- A first item with a non-null `prev_capture_id`. -/
def witItem0bad : TItem :=
  ⟨some "idX", some "ghost", some "t", some "u", some "r", some "n",
   some "deadbeef"⟩

/-- An item carrying no chain digest. -/
def witItemNoChain : TItem :=
  ⟨some "id9", none, some "t", some "u", some "r", some "n", none⟩

/-- Witness for C2: every hypothesis-bearing conjunct applied at concrete
inputs. -/
theorem C2_verifier_chain_replay_witness :
    chainPhase [witItem0bad] =
      (["FAIL: item[0] prev_capture_id should be null for first item"], 1) ∧
    chainPhase [witItem1, witItem2bad] =
      (["FAIL: item[1] prev_capture_id WRONG does not match previous item id id1"],
        1) ∧
    chainPhase [witItem1, witItem2dig] =
      (["FAIL: item[1] chain_sha256 mismatch (computed 414d9ff14aafe607cc90256f2a6ee0432ea233e72daf1dfa5290215d73b186d5, expected deadbeef)"],
        1) ∧
    ((chainPhase [witItem1]).2 = 0 ↔
      chainValidFrom [witItem1] 0 none none = true) ∧
    chainPhase [witItemNoChain] =
      (["SKIP: timeline items missing chain_sha256; not verifying chain"], 0) := by
  refine ⟨?_, ?_, ?_, ?_, ?_⟩
  · exact C2_verifier_chain_replay.1 witItem0bad [] (by decide) (by decide)
  · have h := C2_verifier_chain_replay.2.1 [witItem1] witItem2bad []
      (by decide) (by decide) (by decide) (by decide)
    exact h.trans (by decide)
  · have h := C2_verifier_chain_replay.2.2.1 [witItem1] witItem2dig []
      (by decide) (by decide) (by decide) (by decide)
    exact h.trans (by decide)
  · exact C2_verifier_chain_replay.2.2.2.1 [witItem1] (by decide)
  · exact C2_verifier_chain_replay.2.2.2.2.1 [witItemNoChain] (by decide) (by decide)

/-- C2 counterexample: an *empty* item list trivially contains no item
carrying a chain digest, yet the verifier exits 0 printing nothing — in
particular the claimed explicit skip report is absent. -/
theorem C2_verifier_chain_replay_counterexample :
    chainPhase [] = ([], 0) ∧
    "SKIP: timeline items missing chain_sha256; not verifying chain" ∉
      (chainPhase ([] : List TItem)).1 := by
  exact ⟨rfl, by decide⟩

/-! ### The file phase (claim C7) -/

/-- A manifest file entry verifies: the file exists and its SHA-256
matches the recorded digest. -/
def fileEntryOK (fs : String → Option (List Nat)) (e : FileEntry) : Bool :=
  match fs e.path with
  | none => false
  | some b => sha256hex b == e.sha256

theorem fileLoop_skip_ok (fs : String → Option (List Nat)) (pre : List FileEntry) :
    ∀ l, (∀ e ∈ pre, fileEntryOK fs e = true) →
      fileLoop fs (pre ++ l) = fileLoop fs l := by
  induction pre with
  | nil => intro l _; rfl
  | cons e rest ih =>
      intro l h
      have he := h e (List.mem_cons_self e rest)
      rw [List.cons_append, fileLoop]
      cases hfs : fs e.path with
      | none => rw [fileEntryOK, hfs] at he; cases he
      | some b =>
          rw [fileEntryOK, hfs, beq_iff_eq] at he
          simp only [hfs, he, ne_eq, not_true_eq_false, if_neg, ite_false,
            not_false_eq_true]
          exact ih l fun x hx => h x (List.mem_cons_of_mem _ hx)

theorem fileLoop_code_one (fs : String → Option (List Nat)) :
    ∀ l out c, fileLoop fs l = (out, some c) → c = 1 := by
  intro l
  induction l with
  | nil => intro out c h; simp [fileLoop] at h
  | cons e rest ih =>
      intro out c h
      rw [fileLoop] at h
      split at h
      · injection h with h1 h2
        injection h2 with h3
        exact h3.symm
      · split at h
        · injection h with h1 h2
          injection h2 with h3
          exact h3.symm
        · exact ih out c h

theorem chainLoop_code_le_one (l : List TItem) :
    ∀ idx pid pch, (chainLoop l idx pid pch).2 = 0 ∨
      (chainLoop l idx pid pch).2 = 1 := by
  induction l with
  | nil => intro idx pid pch; left; rfl
  | cons it rest ih =>
      intro idx pid pch
      rw [chainLoop]
      split_ifs
      · right; rfl
      · right; rfl
      · right; rfl
      · right; rfl
      · right; rfl
      · right; rfl
      · right; rfl
      · simp only [ne_eq]
        split_ifs
        · exact ih (idx + 1) it.id it.chain_sha256
        · right; rfl
      · right; rfl

theorem chainPhase_code_le_one (items : List TItem) :
    (chainPhase items).2 = 0 ∨ (chainPhase items).2 = 1 := by
  rw [chainPhase]
  split_ifs
  · left; rfl
  · exact chainLoop_code_le_one items 0 none none
  · left; rfl

theorem verifyMain_total (fs : String → Option (List Nat))
    (m : Option (List FileEntry)) (t : Option (List TItem)) :
    (verifyMain fs m t).2 = 0 ∨ (verifyMain fs m t).2 = 1 := by
  cases m with
  | none => right; rfl
  | some files =>
      rw [verifyMain]
      cases hfl : fileLoop fs files with
      | mk out oc =>
          cases oc with
          | some c =>
              right
              show c = 1
              exact fileLoop_code_one fs files out c hfl
          | none =>
              cases t with
              | none => left; rfl
              | some items => exact chainPhase_code_le_one items

/-- C7 (amended): the embedded verifier stops at the *first* failing
manifest entry: with every earlier entry verifying, a missing file or a
digest mismatch at entry `e` makes the whole run report exactly that one
failure and exit 1, regardless of the entries after `e` (so later
mismatches are not examined, let alone reported); and the verifier never
throws for expected failure conditions — it is a total function whose
exit code is always 0 or 1, as exercised per file and (via
`C2_verifier_chain_replay`) per chain link. -/
theorem C7_verifier_first_failure :
    (∀ (fs : String → Option (List Nat)) (pre : List FileEntry)
       (e : FileEntry) (rest : List FileEntry) (t : Option (List TItem)),
      (∀ x ∈ pre, fileEntryOK fs x = true) → fs e.path = none →
      verifyMain fs (some (pre ++ e :: rest)) t =
        (["FAIL: " ++ e.path ++ " not found"], 1)) ∧
    (∀ (fs : String → Option (List Nat)) (pre : List FileEntry)
       (e : FileEntry) (rest : List FileEntry) (t : Option (List TItem))
       (b : List Nat),
      (∀ x ∈ pre, fileEntryOK fs x = true) → fs e.path = some b →
      sha256hex b ≠ e.sha256 →
      verifyMain fs (some (pre ++ e :: rest)) t =
        (["FAIL: " ++ e.path ++ " hash mismatch"], 1)) ∧
    (∀ (fs : String → Option (List Nat)) (m : Option (List FileEntry))
       (t : Option (List TItem)),
      (verifyMain fs m t).2 = 0 ∨ (verifyMain fs m t).2 = 1) := by
  refine ⟨?_, ?_, verifyMain_total⟩
  · intro fs pre e rest t hpre hmiss
    have hstep : fileLoop fs (e :: rest) =
        (["FAIL: " ++ e.path ++ " not found"], some 1) := by
      rw [fileLoop]
      simp [hmiss]
    rw [verifyMain, fileLoop_skip_ok fs pre (e :: rest) hpre, hstep]
  · intro fs pre e rest t b hpre hfs hne
    have hstep : fileLoop fs (e :: rest) =
        (["FAIL: " ++ e.path ++ " hash mismatch"], some 1) := by
      rw [fileLoop]
      simp [hfs, hne]
    rw [verifyMain, fileLoop_skip_ok fs pre (e :: rest) hpre, hstep]

/-- The unpacked files used for the C7 counterexample: two files whose
bytes do not hash to their manifest digests. -/
def witFS : String → Option (List Nat) := fun p =>
  if p = "a.txt" then some [1]
  else if p = "b.txt" then some [2]
  else none

/-- A manifest digest that matches neither file (64 zeros). -/
def witZeroDigest : String :=
  "0000000000000000000000000000000000000000000000000000000000000000"

/-- Witness for C7: the two failure conjuncts applied at concrete packs
(a good first entry, then a missing file, respectively a mismatching
file). -/
theorem C7_verifier_first_failure_witness :
    verifyMain witFS
        (some [⟨"a.txt",
          "4bf5122f344554c53bde2ebb8cd2b7e3d1600ad631c385a5d7cce23c7785459a"⟩,
          ⟨"c.txt", witZeroDigest⟩]) none = (["FAIL: c.txt not found"], 1) ∧
    verifyMain witFS (some [⟨"b.txt", witZeroDigest⟩]) none =
      (["FAIL: b.txt hash mismatch"], 1) := by
  constructor
  · exact (C7_verifier_first_failure.1 witFS
      [⟨"a.txt",
        "4bf5122f344554c53bde2ebb8cd2b7e3d1600ad631c385a5d7cce23c7785459a"⟩]
      ⟨"c.txt", witZeroDigest⟩ [] none (by decide) (by decide)).trans (by decide)
  · exact (C7_verifier_first_failure.2.1 witFS []
      ⟨"b.txt", witZeroDigest⟩ [] none [2] (by decide) (by decide)
      (by decide)).trans (by decide)

/-- C7 counterexample: with *two* files both mismatching their manifest
digests, the verifier's whole report is the single line about `a.txt` and
exit 1 — the mismatch of `b.txt` (shown real by the last conjunct) is
never reported, refuting "it accumulates and reports every mismatch it
finds". -/
theorem C7_verifier_first_failure_counterexample :
    verifyMain witFS
        (some [⟨"a.txt", witZeroDigest⟩, ⟨"b.txt", witZeroDigest⟩]) none =
      (["FAIL: a.txt hash mismatch"], 1) ∧
    sha256hex [2] ≠ witZeroDigest := by
  constructor
  · decide
  · decide

/-! ## The capture sequencer

`create_capture` from `app/routers/captures.py`.  The database session
becomes an explicit value: the `Source` query result set is a list, the
most recent prior capture (the result of the `order_by ... desc limit 1`
query) is an `Option`, and the awaited `fetch_url` call is an already
materialized outcome (a value or a raised exception carried as its
`repr(e)` string).  `datetime.now` is materialized as the single
`captured_at_iso` string used both for the row and the chain input (the
code derives both from one `captured_at` value). -/

/-- A `Source` row (the columns used by the capture endpoint). -/
structure SourceRec where
  id : String
  org_id : String
  url : String
  canonical_url : String
  is_active : Bool
deriving DecidableEq, Repr

/-- The hard-coded v1 organization id. -/
def V1_ORG_ID : String := "00000000-0000-0000-0000-000000000001"

/-- The dict returned by a successful `fetch_url`. -/
structure Fetched where
  status : Int
  content_type : Option String
  etag : Option String
  last_modified : Option String
  raw_bytes_sha256 : String
  normalized_text_sha256 : String
  normalized_text_len : Nat
  normalized_text : String
deriving DecidableEq, Repr

/-- Outcome of `await fetch_url(...)`: a result, or a raised exception
carried as its `repr(e)` string. -/
inductive FetchOutcome where
  | ok (f : Fetched)
  | exc (e : String)
deriving DecidableEq, Repr

/-- The previous capture for chain linking (`prev_cap`), as used: its id
and its stored chain digest. -/
structure PrevCapture where
  id : String
  chain_sha256 : String
deriving DecidableEq, Repr

/-- The new `Capture` row assembled by `create_capture`. -/
structure CaptureRow where
  org_id : String
  source_id : String
  captured_at_iso : String
  fetch_status : Int
  fetch_error : Option String
  content_type : Option String
  etag : Option String
  last_modified : Option String
  raw_bytes_sha256 : String
  normalized_text_sha256 : String
  normalized_text_len : Nat
  prev_capture_id : Option String
  chain_sha256 : String
deriving DecidableEq, Repr

/-- The deterministic substitute payload built in the `except` branch:
empty raw bytes and empty normalized text, both digests the SHA-256 of
the empty byte string (the `status` field is never read in this branch —
`fetch_status` is assigned the literal 0 separately, as in the code). -/
def failurePayload : Fetched :=
  ⟨0, none, none, none, sha256_hex [], sha256_hex [], 0, ""⟩

/-- `create_capture(source_id)`: resolve the source by id and the
hard-coded org (no `is_active` filter appears in the query), read the
previous capture, fetch (absorbing any exception into the substitute
payload with `fetch_status = 0` and `fetch_error = repr(e)`), compute the
chain digest and assemble the new row.  `HTTPException(404)` becomes
`.error 404`. -/
def create_capture (sources : List SourceRec) (prev : Option PrevCapture)
    (source_id : String) (captured_at_iso : String) (fetch : FetchOutcome) :
    Except Nat CaptureRow :=
  match sources.find? (fun s => s.id == source_id && s.org_id == V1_ORG_ID) with
  | none => .error 404
  | some source =>
    let prev_chain := prev.map (fun c => c.chain_sha256)
    let prev_id := prev.map (fun c => c.id)
    let fr : Fetched × Int × Option String :=
      match fetch with
      | .ok f => (f, f.status, none)
      | .exc e => (failurePayload, 0, some e)
    let fetched := fr.1
    let fetch_status := fr.2.1
    let fetch_error := fr.2.2
    let chain_sha := compute_chain_sha256 prev_id prev_chain
      fetched.raw_bytes_sha256 fetched.normalized_text_sha256
      captured_at_iso source.canonical_url
    .ok ⟨V1_ORG_ID, source_id, captured_at_iso, fetch_status, fetch_error,
      fetched.content_type, fetched.etag, fetched.last_modified,
      fetched.raw_bytes_sha256, fetched.normalized_text_sha256,
      fetched.normalized_text_len, prev_id, chain_sha⟩

/-- C3: when the fetch raises, `create_capture` does not propagate the
error: with the source resolved it still returns a capture row with
`fetch_status = 0`, both digests equal to SHA-256 of the empty byte
string, empty normalized text (length 0; the substitute payload's text is
`""`), a non-null error description, and a chain digest computed by the
very same `compute_chain_sha256` formula over the predecessor's id and
chain digest — extending the chain exactly as a successful capture
would. -/
theorem C3_fetch_failure_absorbed (sources : List SourceRec)
    (prev : Option PrevCapture) (source_id captured_at_iso e : String)
    (source : SourceRec)
    (hfind : sources.find?
      (fun s => s.id == source_id && s.org_id == V1_ORG_ID) = some source) :
    ∃ row : CaptureRow,
      create_capture sources prev source_id captured_at_iso (.exc e) =
        .ok row ∧
      row.fetch_status = 0 ∧
      row.raw_bytes_sha256 = sha256hex [] ∧
      row.normalized_text_sha256 = sha256hex [] ∧
      row.normalized_text_len = 0 ∧
      row.fetch_error = some e ∧
      row.fetch_error ≠ none ∧
      row.prev_capture_id = prev.map (fun c => c.id) ∧
      row.chain_sha256 = compute_chain_sha256 (prev.map (fun c => c.id))
        (prev.map (fun c => c.chain_sha256)) (sha256hex []) (sha256hex [])
        captured_at_iso source.canonical_url := by
  simp only [create_capture.eq_def, hfind]
  exact ⟨_, rfl, rfl, rfl, rfl, rfl, rfl, by simp, rfl, rfl⟩

/-- A syntactically valid fetch result for exercising the sequencer. -/
def witFetched : Fetched := ⟨200, none, none, none, "r", "n", 1, "x"⟩

/-- A source row that exists but is inactive. -/
def witInactiveSource : SourceRec :=
  ⟨"s1", "00000000-0000-0000-0000-000000000001", "u", "cu", false⟩

/-- Witness for C3: the theorem applied at a concrete failed fetch. -/
theorem C3_fetch_failure_absorbed_witness :
    ∃ row : CaptureRow,
      create_capture [witInactiveSource] none "s1" "t" (.exc "boom") =
        .ok row ∧
      row.fetch_status = 0 ∧
      row.raw_bytes_sha256 = sha256hex [] ∧
      row.normalized_text_sha256 = sha256hex [] ∧
      row.normalized_text_len = 0 ∧
      row.fetch_error = some "boom" ∧
      row.fetch_error ≠ none ∧
      row.prev_capture_id = (none : Option PrevCapture).map (fun c => c.id) ∧
      row.chain_sha256 = compute_chain_sha256
        ((none : Option PrevCapture).map (fun c => c.id))
        ((none : Option PrevCapture).map (fun c => c.chain_sha256))
        (sha256hex []) (sha256hex []) "t" witInactiveSource.canonical_url :=
  C3_fetch_failure_absorbed [witInactiveSource] none "s1" "t" "boom"
    witInactiveSource (by decide)

/-- A source row whose `is_active` flag is replaced. -/
def setActive (g : SourceRec → Bool) (s : SourceRec) : SourceRec :=
  ⟨s.id, s.org_id, s.url, s.canonical_url, g s⟩

theorem find?_setActive (g : SourceRec → Bool) (sources : List SourceRec)
    (p : SourceRec → Bool) (hp : ∀ s, p (setActive g s) = p s) :
    (sources.map (setActive g)).find? p = (sources.find? p).map (setActive g) := by
  induction sources with
  | nil => rfl
  | cons s rest ih =>
      rw [List.map_cons, List.find?_cons, List.find?_cons, hp]
      cases hps : p s with
      | true => rfl
      | false => simpa using ih

/-- C6 (amended): `create_capture` fails with 404 exactly when no source
row matches the requested id for the hard-coded tenant — the `is_active`
flag is never consulted: rewriting every source's flag (by an arbitrary
function of the row) leaves the outcome unchanged, and whenever the
source is found — active or not — a capture is created. -/
theorem C6_not_found_iff_absent (sources : List SourceRec)
    (prev : Option PrevCapture) (source_id captured_at_iso : String)
    (fetch : FetchOutcome) :
    (create_capture sources prev source_id captured_at_iso fetch =
        .error 404 ↔
      sources.find?
        (fun s => s.id == source_id && s.org_id == V1_ORG_ID) = none) ∧
    (∀ g : SourceRec → Bool,
      create_capture (sources.map (setActive g)) prev source_id
          captured_at_iso fetch =
        create_capture sources prev source_id captured_at_iso fetch) ∧
    (sources.find? (fun s => s.id == source_id && s.org_id == V1_ORG_ID) ≠
        none →
      ∃ row, create_capture sources prev source_id captured_at_iso fetch =
        .ok row) := by
  refine ⟨?_, ?_, ?_⟩
  · cases hfind : sources.find?
        (fun s => s.id == source_id && s.org_id == V1_ORG_ID) with
    | none => simp [create_capture.eq_def, hfind]
    | some s => simp [create_capture.eq_def, hfind]
  · intro g
    rw [create_capture.eq_def, create_capture.eq_def,
      find?_setActive g sources
        (fun s => s.id == source_id && s.org_id == V1_ORG_ID)
        (fun s => rfl)]
    cases hfind : sources.find?
        (fun s => s.id == source_id && s.org_id == V1_ORG_ID) with
    | none => rfl
    | some s => rfl
  · intro hne
    cases hfind : sources.find?
        (fun s => s.id == source_id && s.org_id == V1_ORG_ID) with
    | none => exact absurd hfind hne
    | some s =>
        simp only [create_capture.eq_def, hfind]
        exact ⟨_, rfl⟩

/-- Witness for C6: the third conjunct applied at a concrete store. -/
theorem C6_not_found_iff_absent_witness :
    ∃ row, create_capture [witInactiveSource] none "s1" "t"
      (.ok witFetched) = .ok row :=
  (C6_not_found_iff_absent [witInactiveSource] none "s1" "t"
    (.ok witFetched)).2.2 (by decide)

/-- C6 counterexample: a source that exists but has `is_active = false`
is *not* rejected — `create_capture` creates a capture for it instead of
failing with 404, refuting "fails with NotFound ... or is inactive". -/
theorem C6_not_found_iff_absent_counterexample :
    witInactiveSource.is_active = false ∧
    (create_capture [witInactiveSource] none "s1" "t"
      (.ok witFetched)).isOk = true := by
  constructor
  · rfl
  · decide

/-! ## The canonicalizer

`canonicalize_url` from `app/services/normalize.py`, with the
`urllib.parse.urlsplit` / `urlunsplit` library calls embedded over
`List Char`.  Restrictions of the library model (each hypothesized away
in the amended idempotence theorem): the stdlib's removal of tab/CR/LF,
its stripping of leading C0-control-or-space characters, its
IPv6-bracket validation, and Unicode case mapping are not modeled — the
theorems assume printable-ASCII inputs without square brackets, on which
all of those are no-ops. -/

/-- One character of Python's `str.isascii() and str.isalpha()`. -/
def asciiAlpha (c : Char) : Bool :=
  (65 ≤ c.toNat && c.toNat ≤ 90) || (97 ≤ c.toNat && c.toNat ≤ 122)

/-- ASCII digit. -/
def asciiDigit (c : Char) : Bool := 48 ≤ c.toNat && c.toNat ≤ 57

/-- Python `urllib.parse.scheme_chars`. -/
def schemeChar (c : Char) : Bool :=
  asciiAlpha c || asciiDigit c || c = '+' || c = '-' || c = '.'

/-- Scan up to the first `':'`, requiring every char before it to be a
scheme char (mirrors `url.find(':')` plus the `for c in url[1:i]`
loop). -/
def schemeScan : List Char → Option (List Char × List Char)
  | [] => none
  | c :: rest =>
    if c = ':' then some ([], rest)
    else if schemeChar c then
      match schemeScan rest with
      | some (s, r) => some (c :: s, r)
      | none => none
    else none

/-- Split off a scheme when present: first char ASCII alphabetic, then
scheme chars up to a `':'`. -/
def schemeSplit : List Char → Option (List Char × List Char)
  | [] => none
  | c :: rest =>
    if asciiAlpha c then
      match schemeScan rest with
      | some (s, r) => some (c :: s, r)
      | none => none
    else none

/-- `str.lower()` (ASCII). -/
def lowerStr (l : List Char) : List Char := l.map Char.toLower

/-- The netloc's terminating delimiters (`'/?#'`). -/
def netlocEnd (c : Char) : Bool := c = '/' || c = '?' || c = '#'

/-- `_splitnetloc(url, 2)`: the netloc runs to the first of `/?#`. -/
def splitNetloc : List Char → List Char × List Char
  | [] => ([], [])
  | c :: rest =>
    if netlocEnd c then ([], c :: rest)
    else
      let p := splitNetloc rest
      (c :: p.1, p.2)

/-- `l.split(d, 1)` when `d` occurs; `(l, [])` otherwise (the empty
second component coincides with the absent fragment/query, exactly as
`urlunsplit`'s `if fragment:` / `if query:` truthiness treats them). -/
def splitFirst (d : Char) : List Char → List Char × List Char
  | [] => ([], [])
  | c :: rest =>
    if c = d then ([], rest)
    else
      let p := splitFirst d rest
      (c :: p.1, p.2)

/-- The `SplitResult` five-tuple of `urlsplit`. -/
structure SplitResult where
  scheme : List Char
  netloc : List Char
  path : List Char
  query : List Char
  fragment : List Char
deriving DecidableEq, Repr

/-- `urllib.parse.urlsplit` (see the section comment for the modeled
subset). -/
def urlsplit (u : List Char) : SplitResult :=
  let sr : List Char × List Char :=
    match schemeSplit u with
    | some (s, r) => (lowerStr s, r)
    | none => ([], u)
  let rest := sr.2
  let nr : List Char × List Char :=
    if rest.take 2 = ['/', '/'] then splitNetloc (rest.drop 2)
    else ([], rest)
  let fr := splitFirst '#' nr.2
  let pq := splitFirst '?' fr.1
  ⟨sr.1, nr.1, pq.1, pq.2, fr.2⟩

/-- `urllib.parse.uses_netloc` (the non-empty members; the empty string
member is unreachable behind `if scheme and ...`). -/
def uses_netloc : List (List Char) :=
  ["ftp", "http", "gopher", "nntp", "telnet", "imap", "wais", "file",
   "mms", "https", "shttp", "snews", "prospero", "rtsp", "rtsps", "rtspu",
   "rsync", "svn", "svn+ssh", "sftp", "nfs", "git", "git+ssh", "ws",
   "wss"].map String.toList

/-- `urllib.parse.urlunsplit`: the `//` authority marker is emitted when
there is a netloc, or when the scheme conventionally uses one and the
path does not already begin with `//`. -/
def urlunsplit (r : SplitResult) : List Char :=
  let url0 := r.path
  let url1 :=
    if r.netloc ≠ [] ∨
        (r.scheme ≠ [] ∧ r.scheme ∈ uses_netloc ∧ url0.take 2 ≠ ['/', '/']) then
      '/' :: '/' :: (r.netloc ++
        (if url0 ≠ [] ∧ url0.head? ≠ some '/' then '/' :: url0 else url0))
    else url0
  let url2 := if r.scheme ≠ [] then r.scheme ++ ':' :: url1 else url1
  let url3 := if r.query ≠ [] then url2 ++ '?' :: r.query else url2
  if r.fragment ≠ [] then url3 ++ '#' :: r.fragment else url3

/-- `canonicalize_url` from `app/services/normalize.py`: lower-case
scheme and netloc, replace an empty path by `/`, strip one trailing slash
from a non-root path, keep the query, drop the fragment. -/
def canonicalize_url (u : List Char) : List Char :=
  let parts := urlsplit u
  let scheme := lowerStr parts.scheme
  let netloc := lowerStr parts.netloc
  let path0 := if parts.path = [] then ['/'] else parts.path
  let path :=
    if path0 ≠ ['/'] ∧ path0.getLast? = some '/' then path0.dropLast
    else path0
  urlunsplit ⟨scheme, netloc, path, parts.query, []⟩

/-- `canonicalize_url` on `String` values. -/
def canonicalizeUrlStr (s : String) : String :=
  String.mk (canonicalize_url s.toList)

/-- Replace an empty path with `/` (spec rule 3). -/
def emptyToRoot (p : List Char) : List Char := if p = [] then ['/'] else p

/-- Strip a single trailing slash from any non-root path (spec rule 4). -/
def stripOneTrailingSlash (p : List Char) : List Char :=
  if p ≠ ['/'] ∧ p.getLast? = some '/' then p.dropLast else p

/-- Modelled from the spec's words (§4.1), for the C5 refinement only:
lower-case scheme and host, drop any fragment, replace an empty path with
`/`, strip a single trailing slash from any non-root path, preserve the
query verbatim. -/
def canonicalizeSpec (u : List Char) : List Char :=
  let parts := urlsplit u
  urlunsplit ⟨lowerStr parts.scheme, lowerStr parts.netloc,
    stripOneTrailingSlash (emptyToRoot parts.path), parts.query, []⟩

/-! ### Character-level lemmas -/

theorem char_eq_iff_toNat {c d : Char} : c = d ↔ c.toNat = d.toNat := by
  constructor
  · intro h; rw [h]
  · intro h
    apply Char.ext
    have hv : c.val.toNat = d.val.toNat := h
    exact UInt32.toNat.inj hv

theorem toNat_toLower (c : Char) :
    (Char.toLower c).toNat =
      if 65 ≤ c.toNat ∧ c.toNat ≤ 90 then c.toNat + 32 else c.toNat := by
  rw [Char.toLower]
  split_ifs with h
  · have hv : Nat.isValidChar (c.toNat + 32) := by
      left
      omega
    rw [Char.ofNat, dif_pos hv]
    rfl
  · rfl

theorem toLower_toLower (c : Char) :
    Char.toLower (Char.toLower c) = Char.toLower c := by
  rw [char_eq_iff_toNat]
  have h1 := toNat_toLower c
  have h2 := toNat_toLower (Char.toLower c)
  rw [h2, h1]
  split_ifs <;> omega

theorem toLower_eq_self (c : Char) (h : ¬(65 ≤ c.toNat ∧ c.toNat ≤ 90)) :
    Char.toLower c = c := by
  rw [char_eq_iff_toNat, toNat_toLower, if_neg h]

theorem asciiAlpha_toLower (c : Char) :
    asciiAlpha (Char.toLower c) = asciiAlpha c := by
  rw [Bool.eq_iff_iff]
  simp only [asciiAlpha, toNat_toLower, Bool.or_eq_true, Bool.and_eq_true,
    decide_eq_true_eq]
  split_ifs with h <;> omega

theorem asciiDigit_toLower (c : Char) :
    asciiDigit (Char.toLower c) = asciiDigit c := by
  rw [Bool.eq_iff_iff]
  simp only [asciiDigit, toNat_toLower, Bool.and_eq_true, decide_eq_true_eq]
  split_ifs with h <;> omega

theorem schemeChar_toLower (c : Char) :
    schemeChar (Char.toLower c) = schemeChar c := by
  by_cases h : 65 ≤ c.toNat ∧ c.toNat ≤ 90
  · have hp : ('+' : Char).toNat = 43 := rfl
    have hm : ('-' : Char).toNat = 45 := rfl
    have hd : ('.' : Char).toNat = 46 := rfl
    have e1 : c.toNat + 32 ≠ 43 := by omega
    have e2 : c.toNat + 32 ≠ 45 := by omega
    have e3 : c.toNat + 32 ≠ 46 := by omega
    have f1 : c.toNat ≠ 43 := by omega
    have f2 : c.toNat ≠ 45 := by omega
    have f3 : c.toNat ≠ 46 := by omega
    rw [Bool.eq_iff_iff]
    simp only [schemeChar, asciiAlpha_toLower, asciiDigit_toLower,
      Bool.or_eq_true, char_eq_iff_toNat, toNat_toLower, if_pos h,
      decide_eq_true_eq, hp, hm, hd, e1, e2, e3, f1, f2, f3, or_false]
  · rw [toLower_eq_self c h]

theorem netlocEnd_toLower (c : Char) :
    netlocEnd (Char.toLower c) = netlocEnd c := by
  by_cases h : 65 ≤ c.toNat ∧ c.toNat ≤ 90
  · rw [Bool.eq_iff_iff]
    simp only [netlocEnd, Bool.or_eq_true, char_eq_iff_toNat, toNat_toLower,
      if_pos h]
    have h1 : ('/' : Char).toNat = 47 := rfl
    have h2 : ('?' : Char).toNat = 63 := rfl
    have h3 : ('#' : Char).toNat = 35 := rfl
    rw [h1, h2, h3]
    simp only [decide_eq_true_eq]
    omega
  · rw [toLower_eq_self c h]

theorem lowerStr_idem (l : List Char) : lowerStr (lowerStr l) = lowerStr l := by
  simp only [lowerStr, List.map_map]
  apply List.map_congr_left
  intro c _
  exact toLower_toLower c

theorem lowerStr_length (l : List Char) : (lowerStr l).length = l.length :=
  List.length_map _ _

/-! ### List-scanning lemmas -/

theorem splitFirst_fst_not_mem (d : Char) (l : List Char) :
    d ∉ (splitFirst d l).1 := by
  induction l with
  | nil => simp [splitFirst]
  | cons c t ih =>
      rw [splitFirst]
      by_cases h : c = d
      · simp [h]
      · rw [if_neg h]
        simp only [List.mem_cons, not_or]
        exact ⟨fun hdc => h hdc.symm, ih⟩

theorem splitFirst_of_not_mem (d : Char) (l : List Char) (h : d ∉ l) :
    splitFirst d l = (l, []) := by
  induction l with
  | nil => rfl
  | cons c t ih =>
      have hc : ¬c = d := fun hc => h (hc ▸ List.mem_cons_self c t)
      have ht := ih (fun hm => h (List.mem_cons_of_mem c hm))
      rw [splitFirst, if_neg hc, ht]

theorem splitFirst_append (d : Char) (a b : List Char) (ha : d ∉ a) :
    splitFirst d (a ++ d :: b) = (a, b) := by
  induction a with
  | nil => simp [splitFirst]
  | cons c t ih =>
      have hc : ¬c = d := fun hc => ha (hc ▸ List.mem_cons_self c t)
      have ht := ih (fun hm => ha (List.mem_cons_of_mem c hm))
      rw [List.cons_append, splitFirst, if_neg hc, ht]

theorem splitFirst_snd_sub (d : Char) (l : List Char) :
    ∀ x ∈ (splitFirst d l).2, x ∈ l := by
  induction l with
  | nil => simp [splitFirst]
  | cons c t ih =>
      rw [splitFirst]
      by_cases h : c = d
      · rw [if_pos h]
        intro x hx
        exact List.mem_cons_of_mem c hx
      · rw [if_neg h]
        intro x hx
        exact List.mem_cons_of_mem c (ih x hx)

theorem splitFirst_decomp (d : Char) (l : List Char) :
    ∃ mid, l = (splitFirst d l).1 ++ mid ∧
      (mid = [] ∨ mid.head? = some d) := by
  induction l with
  | nil => exact ⟨[], rfl, Or.inl rfl⟩
  | cons c t ih =>
      rw [splitFirst]
      by_cases h : c = d
      · subst h
        exact ⟨c :: t, by simp, Or.inr rfl⟩
      · obtain ⟨mid, hmid, hh⟩ := ih
        rw [if_neg h]
        exact ⟨mid, by simpa using hmid, hh⟩

theorem splitFirst_fst_head (d : Char) (c : Char) (t : List Char)
    (h : ¬c = d) : (splitFirst d (c :: t)).1.head? = some c := by
  rw [splitFirst, if_neg h]
  rfl

theorem splitNetloc_fst_no_delim (l : List Char) :
    ∀ c ∈ (splitNetloc l).1, netlocEnd c = false := by
  induction l with
  | nil => simp [splitNetloc]
  | cons c t ih =>
      rw [splitNetloc]
      by_cases h : netlocEnd c
      · simp [h]
      · rw [if_neg h]
        intro x hx
        rcases List.mem_cons.mp hx with rfl | hx
        · exact Bool.eq_false_iff.mpr h
        · exact ih x hx

theorem splitNetloc_append (n r : List Char)
    (hn : ∀ c ∈ n, netlocEnd c = false)
    (hr : r = [] ∨ ∃ c t, r = c :: t ∧ netlocEnd c = true) :
    splitNetloc (n ++ r) = (n, r) := by
  induction n with
  | nil =>
      rcases hr with rfl | ⟨c, t, rfl, hc⟩
      · rfl
      · rw [List.nil_append, splitNetloc, if_pos hc]
  | cons c t ih =>
      have hc := hn c (List.mem_cons_self c t)
      have ht := ih (fun x hx => hn x (List.mem_cons_of_mem c hx))
      rw [List.cons_append, splitNetloc, if_neg (by simp [hc]), ht]

theorem splitNetloc_decomp (l : List Char) :
    l = (splitNetloc l).1 ++ (splitNetloc l).2 ∧
      ((splitNetloc l).2 = [] ∨
        ∃ c t, (splitNetloc l).2 = c :: t ∧ netlocEnd c = true) := by
  induction l with
  | nil => exact ⟨rfl, Or.inl rfl⟩
  | cons c t ih =>
      by_cases h : netlocEnd c
      · have h1 : splitNetloc (c :: t) = ([], c :: t) := by
          rw [splitNetloc, if_pos h]
        rw [h1]
        exact ⟨rfl, Or.inr ⟨c, t, rfl, h⟩⟩
      · have h1 : splitNetloc (c :: t) =
            (c :: (splitNetloc t).1, (splitNetloc t).2) := by
          rw [splitNetloc, if_neg h]
        obtain ⟨hdec, hh⟩ := ih
        rw [h1]
        refine ⟨?_, hh⟩
        rw [List.cons_append, ← hdec]

theorem schemeChar_colon : schemeChar ':' = false := rfl

theorem schemeScan_eq_match (l : List Char) :
    schemeScan l =
      match l.dropWhile schemeChar with
      | ':' :: r => some (l.takeWhile schemeChar, r)
      | _ => none := by
  induction l with
  | nil => rfl
  | cons c t ih =>
      by_cases h1 : c = ':'
      · subst h1
        rw [schemeScan, if_pos rfl, List.dropWhile_cons,
          if_neg (by decide), List.takeWhile_cons, if_neg (by decide)]
        rfl
      · by_cases h2 : schemeChar c
        · rw [schemeScan, if_neg h1, if_pos h2, List.dropWhile_cons,
            if_pos h2, List.takeWhile_cons, if_pos h2, ih]
          cases hd : List.dropWhile schemeChar t with
          | nil => rfl
          | cons d r =>
              by_cases hdc : d = ':'
              · subst hdc
                rfl
              · have h5 : (match d :: r with
                    | ':' :: r2 => some (List.takeWhile schemeChar t, r2)
                    | _ => (none : Option (List Char × List Char))) = none := by
                  split
                  · rename_i heq
                    injection heq with h3 h4
                    exact absurd h3 hdc
                  · rfl
                have h6 : (match d :: r with
                    | ':' :: r2 =>
                        some (c :: List.takeWhile schemeChar t, r2)
                    | _ => (none : Option (List Char × List Char))) = none := by
                  split
                  · rename_i heq
                    injection heq with h3 h4
                    exact absurd h3 hdc
                  · rfl
                rw [h5, h6]
        · have h5 : (match c :: t with
              | ':' :: r2 => some (List.takeWhile schemeChar (c :: t), r2)
              | _ => (none : Option (List Char × List Char))) = none := by
            split
            · rename_i heq
              injection heq with h3 h4
              exact absurd h3 h1
            · rfl
          rw [schemeScan, if_neg h1, if_neg h2, List.dropWhile_cons, if_neg h2,
            h5]

theorem colon_match_eq {β : Type} (l : List Char) (f : List Char → β) (z : β) :
    (match l with
      | ':' :: r2 => f r2
      | _ => z) =
      if l.head? = some ':' then f l.tail else z := by
  cases l with
  | nil => simp
  | cons d r =>
      by_cases hd : d = ':'
      · subst hd
        simp
      · rw [if_neg (by simp [hd])]
        split
        · rename_i heq
          injection heq with h3 h4
          exact absurd h3 hd
        · rfl

theorem schemeScan_none_iff (l : List Char) :
    schemeScan l = none ↔ (l.dropWhile schemeChar).head? ≠ some ':' := by
  rw [schemeScan_eq_match, colon_match_eq]
  by_cases h : (l.dropWhile schemeChar).head? = some ':' <;> simp [h]

theorem schemeScan_some_app (a b : List Char)
    (ha : ∀ c ∈ a, schemeChar c = true) :
    schemeScan (a ++ ':' :: b) = some (a, b) := by
  have hdw : List.dropWhile schemeChar (a ++ ':' :: b) = ':' :: b := by
    rw [List.dropWhile_append, List.dropWhile_eq_nil_iff.mpr ha]
    simp [List.dropWhile_cons, schemeChar_colon]
  have htw : List.takeWhile schemeChar (a ++ ':' :: b) = a := by
    rw [List.takeWhile_append_of_pos ha, List.takeWhile_cons,
      if_neg (by simp [schemeChar_colon]), List.append_nil]
  rw [schemeScan_eq_match, colon_match_eq, hdw, htw]
  simp

theorem schemeScan_some_decomp (t s r : List Char)
    (h : schemeScan t = some (s, r)) :
    s = t.takeWhile schemeChar ∧ t = s ++ ':' :: r ∧
      ∀ x ∈ s, schemeChar x = true := by
  rw [schemeScan_eq_match, colon_match_eq] at h
  by_cases hh : (t.dropWhile schemeChar).head? = some ':'
  · rw [if_pos hh] at h
    injection h with h1
    obtain ⟨hs, hr⟩ := Prod.mk.injEq _ _ _ _ ▸ h1
    have hds : t.dropWhile schemeChar = ':' :: (t.dropWhile schemeChar).tail := by
      cases hd : t.dropWhile schemeChar with
      | nil => rw [hd] at hh; simp at hh
      | cons c cs =>
          rw [hd] at hh
          simp only [List.head?_cons, Option.some.injEq] at hh
          rw [hh]
          rfl
    refine ⟨hs.symm, ?_, ?_⟩
    · conv_lhs => rw [← List.takeWhile_append_dropWhile schemeChar t]
      rw [hds, ← hs, ← hr]
    · intro x hx
      rw [hs.symm] at hx
      exact List.mem_takeWhile_imp hx
  · rw [if_neg hh] at h
    cases h

theorem schemeSplit_some_app (c : Char) (a b : List Char)
    (hc : asciiAlpha c = true) (ha : ∀ x ∈ a, schemeChar x = true) :
    schemeSplit (c :: (a ++ ':' :: b)) = some (c :: a, b) := by
  rw [schemeSplit, if_pos hc, schemeScan_some_app a b ha]

theorem schemeSplit_none_head (c : Char) (t : List Char)
    (hc : asciiAlpha c = false) : schemeSplit (c :: t) = none := by
  rw [schemeSplit, if_neg (by simp [hc])]

theorem schemeSplit_some_decomp (u sc r : List Char)
    (h : schemeSplit u = some (sc, r)) :
    ∃ c a, sc = c :: a ∧ asciiAlpha c = true ∧
      (∀ x ∈ a, schemeChar x = true) ∧ u = c :: (a ++ ':' :: r) := by
  cases u with
  | nil => cases h
  | cons c t =>
      rw [schemeSplit] at h
      by_cases hc : asciiAlpha c
      · rw [if_pos hc] at h
        cases hs : schemeScan t with
        | none => rw [hs] at h; cases h
        | some p =>
            obtain ⟨s0, r0⟩ := p
            rw [hs] at h
            injection h with h1
            obtain ⟨hsc, hr⟩ := Prod.mk.injEq _ _ _ _ ▸ h1
            obtain ⟨_, hdec, hall⟩ := schemeScan_some_decomp t s0 r0 hs
            exact ⟨c, s0, hsc.symm, hc, hall, by rw [hdec, hr]⟩
      · rw [if_neg hc] at h
        cases h

/-! ### The path transform -/

/-- The path transform applied by `canonicalize_url`: empty becomes `/`,
then one trailing slash is stripped from a non-root path. -/
def pathT (p : List Char) : List Char := stripOneTrailingSlash (emptyToRoot p)

/-- The path ends in (at least) two slashes — exactly the situation in
which a single application of `canonicalize_url` leaves a path that still
ends in a slash. -/
def endsDoubleSlash (p : List Char) : Prop :=
  p.getLast? = some '/' ∧ p.dropLast.getLast? = some '/'

instance (p : List Char) : Decidable (endsDoubleSlash p) := by
  unfold endsDoubleSlash
  infer_instance

theorem pathT_nil : pathT [] = ['/'] := rfl

theorem pathT_concat_slash (xs : List Char) (hxs : xs ≠ []) :
    pathT (xs ++ ['/']) = xs := by
  have hne : xs ++ ['/'] ≠ ['/'] := by
    intro h
    rcases xs with _ | ⟨a, t⟩
    · exact hxs rfl
    · simp only [List.cons_append] at h
      injection h with h1 h2
      exact absurd h2 (by simp)
  rw [pathT, emptyToRoot, if_neg (by simp), stripOneTrailingSlash,
    if_pos ⟨hne, List.getLast?_concat xs⟩, List.dropLast_concat]

theorem pathT_no_trailing (p : List Char) (hp : p.getLast? ≠ some '/') (hne : p ≠ []) :
    pathT p = p := by
  rw [pathT, emptyToRoot, if_neg hne, stripOneTrailingSlash,
    if_neg (fun h => hp h.2)]

theorem pathT_root : pathT ['/'] = ['/'] := rfl

theorem pathT_ne_nil (p : List Char) : pathT p ≠ [] := by
  induction p using List.reverseRecOn with
  | nil => simp [pathT_nil]
  | append_singleton xs x _ =>
      by_cases hx : x = '/'
      · subst hx
        rcases Classical.em (xs = []) with rfl | hxs
        · simp [pathT_root]
        · rw [pathT_concat_slash xs hxs]
          exact hxs
      · rw [pathT_no_trailing _ (by rw [List.getLast?_concat]; simp [hx]) (by simp)]
        simp

theorem pathT_stable (p : List Char) (h : ¬endsDoubleSlash p) :
    pathT (pathT p) = pathT p := by
  induction p using List.reverseRecOn with
  | nil => simp [pathT_nil, pathT_root]
  | append_singleton xs x _ =>
      by_cases hx : x = '/'
      · subst hx
        rcases Classical.em (xs = []) with rfl | hxs
        · simp [pathT_root]
        · rw [pathT_concat_slash xs hxs]
          have hlast : xs.getLast? ≠ some '/' := by
            intro hl
            exact h ⟨List.getLast?_concat xs, by rw [List.dropLast_concat]; exact hl⟩
          rw [pathT_no_trailing xs hlast hxs]
      · have h1 : (xs ++ [x]).getLast? ≠ some '/' := by
          rw [List.getLast?_concat]
          simp [hx]
        have h2 : xs ++ [x] ≠ [] := by simp
        rw [pathT_no_trailing _ h1 h2, pathT_no_trailing _ h1 h2]

theorem pathT_head (p : List Char) (hp : p ≠ []) :
    (pathT p).head? = p.head? := by
  induction p using List.reverseRecOn with
  | nil => exact absurd rfl hp
  | append_singleton xs x _ =>
      by_cases hx : x = '/'
      · subst hx
        rcases Classical.em (xs = []) with rfl | hxs
        · rfl
        · rw [pathT_concat_slash xs hxs, List.head?_append_of_ne_nil _ hxs]
      · have h1 : (xs ++ [x]).getLast? ≠ some '/' := by
          rw [List.getLast?_concat]
          simp [hx]
        rw [pathT_no_trailing _ h1 (by simp)]

theorem pathT_not_mem (p : List Char) (d : Char) (hd : d ≠ '/')
    (h : d ∉ p) : d ∉ pathT p := by
  induction p using List.reverseRecOn with
  | nil => simp [pathT_nil, hd]
  | append_singleton xs x _ =>
      by_cases hx : x = '/'
      · subst hx
        rcases Classical.em (xs = []) with rfl | hxs
        · simp [pathT_root, hd]
        · rw [pathT_concat_slash xs hxs]
          intro hm
          exact h (List.mem_append_left _ hm)
      · have h1 : (xs ++ [x]).getLast? ≠ some '/' := by
          rw [List.getLast?_concat]
          simp [hx]
        rw [pathT_no_trailing _ h1 (by simp)]
        exact h

theorem take_two_slashes_iff (l : List Char) :
    l.take 2 = ['/', '/'] ↔
      l.head? = some '/' ∧ l.tail.head? = some '/' := by
  cases l with
  | nil => simp
  | cons a t =>
      cases t with
      | nil => simp
      | cons b r => simp [List.take]

theorem pathT_take_two (p : List Char) (h : ¬endsDoubleSlash p) :
    (pathT p).take 2 = ['/', '/'] ↔ p.take 2 = ['/', '/'] := by
  induction p using List.reverseRecOn with
  | nil => simp [pathT_nil]
  | append_singleton xs x _ =>
      by_cases hx : x = '/'
      · subst hx
        rcases Classical.em (xs = []) with rfl | hxs
        · simp [pathT_root]
        · rw [pathT_concat_slash xs hxs]
          have hlast : xs.getLast? ≠ some '/' := by
            intro hl
            exact h ⟨List.getLast?_concat xs, by rw [List.dropLast_concat]; exact hl⟩
          rcases xs with _ | ⟨a, _ | ⟨b, t⟩⟩
          · exact absurd rfl hxs
          · have ha : a ≠ '/' := by
              intro hha
              exact hlast (by rw [hha]; rfl)
            simp [List.take, ha]
          · rw [List.take_append_of_le_length (by simp)]
      · have h1 : (xs ++ [x]).getLast? ≠ some '/' := by
          rw [List.getLast?_concat]
          simp [hx]
        rw [pathT_no_trailing _ h1 (by simp)]

/-- `'?' + query` when the query is non-empty, nothing otherwise (how
`urlunsplit` appends the query). -/
def qopt (q : List Char) : List Char := if q = [] then [] else '?' :: q

theorem mem_qopt (q : List Char) (d : Char) (h : d ∈ qopt q) :
    d = '?' ∨ d ∈ q := by
  rw [qopt] at h
  split_ifs at h with hq
  · cases h
  · rcases List.mem_cons.mp h with rfl | h
    · exact Or.inl rfl
    · exact Or.inr h

theorem body_parse (p q : List Char) (hp1 : '#' ∉ p) (hp2 : '?' ∉ p)
    (hq : '#' ∉ q) :
    splitFirst '#' (p ++ qopt q) = (p ++ qopt q, []) ∧
      splitFirst '?' (p ++ qopt q) = (p, q) := by
  constructor
  · apply splitFirst_of_not_mem
    intro hm
    rcases List.mem_append.mp hm with hm | hm
    · exact hp1 hm
    · rcases mem_qopt q '#' hm with h | h
      · cases h
      · exact hq h
  · rw [qopt]
    split_ifs with hqe
    · subst hqe
      rw [List.append_nil]
      exact splitFirst_of_not_mem _ _ hp2
    · exact splitFirst_append '?' p q hp2

theorem dropWhile_append_all (a b : List Char)
    (ha : ∀ c ∈ a, schemeChar c = true) :
    List.dropWhile schemeChar (a ++ b) = List.dropWhile schemeChar b := by
  rw [List.dropWhile_append, List.dropWhile_eq_nil_iff.mpr ha]
  rfl

theorem dropWhile_append_breaker (a b : List Char) (e : Char) (es : List Char)
    (ha : List.dropWhile schemeChar a = e :: es) :
    List.dropWhile schemeChar (a ++ b) = e :: (es ++ b) := by
  rw [List.dropWhile_append, ha]
  rfl

theorem dropWhile_breaker_not (a : List Char) (e : Char) (es : List Char)
    (ha : List.dropWhile schemeChar a = e :: es) : schemeChar e = false := by
  have := List.head?_dropWhile_not schemeChar a
  rw [ha] at this
  simpa using this

theorem qhead_scan_none (B : List Char) (hB : B = [] ∨ B.head? = some '?') :
    (List.dropWhile schemeChar B).head? ≠ some ':' := by
  rcases hB with rfl | hB
  · simp
  · cases B with
    | nil => simp at hB
    | cons b bt =>
        simp only [List.head?_cons, Option.some.injEq] at hB
        subst hB
        rw [List.dropWhile_cons, if_neg (by decide)]
        simp

theorem pathT_cases (c : Char) (pt : List Char) :
    (∃ pt2, pathT (c :: pt) = c :: pt2 ∧
      (pt2 = pt ∨
        (pt ≠ [] ∧ pt.getLast? = some '/' ∧ pt2 = pt.dropLast))) := by
  rw [pathT, emptyToRoot, if_neg (by simp), stripOneTrailingSlash]
  split_ifs with hcond
  · obtain ⟨hne, hlast⟩ := hcond
    have hptne : pt ≠ [] := by
      rintro rfl
      simp only [List.getLast?_singleton, Option.some.injEq] at hlast
      exact hne (by rw [hlast])
    refine ⟨pt.dropLast, ?_, Or.inr ⟨hptne, ?_, rfl⟩⟩
    · cases pt with
      | nil => exact absurd rfl hptne
      | cons d t => rfl
    · cases pt with
      | nil => exact absurd rfl hptne
      | cons d t => rwa [List.getLast?_cons_cons] at hlast
  · exact ⟨pt, rfl, Or.inl rfl⟩

/-- The key lemma for the no-scheme case of idempotence: if the original
URL parses with no scheme, then the canonical output (transformed path
followed by the reassembled query) still parses with no scheme. -/
theorem crux_no_scheme (p mid B : List Char)
    (h : schemeSplit (p ++ mid) = none)
    (hB : B = [] ∨ B.head? = some '?') :
    schemeSplit (pathT p ++ B) = none := by
  cases p with
  | nil =>
      rw [pathT_nil]
      exact schemeSplit_none_head '/' B rfl
  | cons c pt =>
      obtain ⟨pt2, hpt2, hrel⟩ := pathT_cases c pt
      rw [hpt2, List.cons_append]
      by_cases hc : asciiAlpha c
      · rw [List.cons_append, schemeSplit, if_pos hc] at h
        have hscan : schemeScan (pt ++ mid) = none := by
          cases hs : schemeScan (pt ++ mid) with
          | none => rfl
          | some pr =>
              rw [hs] at h
              cases h
        rw [schemeSplit, if_pos hc]
        have hgoal : schemeScan (pt2 ++ B) = none := by
          apply (schemeScan_none_iff _).mpr
          cases hdw : List.dropWhile schemeChar pt with
          | nil =>
              have hall : ∀ x ∈ pt, schemeChar x = true :=
                List.dropWhile_eq_nil_iff.mp hdw
              have hpt2all : ∀ x ∈ pt2, schemeChar x = true := by
                rcases hrel with rfl | ⟨hne, hlast, rfl⟩
                · exact hall
                · intro x hx
                  exact hall x (List.dropLast_subset pt hx)
              rw [dropWhile_append_all pt2 B hpt2all]
              exact qhead_scan_none B hB
          | cons e es =>
              have he_not : schemeChar e = false :=
                dropWhile_breaker_not pt e es hdw
              have he_ne : e ≠ ':' := by
                rw [schemeScan_none_iff,
                  dropWhile_append_breaker pt mid e es hdw] at hscan
                simpa using hscan
              have hsplit : pt = pt.takeWhile schemeChar ++ e :: es := by
                conv_lhs => rw [← List.takeWhile_append_dropWhile schemeChar pt]
                rw [hdw]
              have htw : ∀ x ∈ pt.takeWhile schemeChar, schemeChar x = true :=
                fun x hx => List.mem_takeWhile_imp hx
              rcases hrel with rfl | ⟨hptne, hlast, hpt2eq⟩
              · rw [dropWhile_append_breaker pt2 B e es hdw]
                simpa using he_ne
              · cases es with
                | nil =>
                    have hpt_eq : pt = pt.takeWhile schemeChar ++ [e] := hsplit
                    have hpt2' : pt2 = pt.takeWhile schemeChar := by
                      rw [hpt2eq]
                      conv_lhs => rw [hpt_eq]
                      rw [List.dropLast_concat]
                    rw [hpt2', dropWhile_append_all _ B htw]
                    exact qhead_scan_none B hB
                | cons e2 es2 =>
                    have hpt2' : pt2 =
                        pt.takeWhile schemeChar ++ (e :: List.dropLast (e2 :: es2)) := by
                      rw [hpt2eq]
                      conv_lhs => rw [hsplit]
                      rw [List.dropLast_append_of_ne_nil _ (by simp)]
                      rfl
                    rw [hpt2', List.append_assoc,
                      dropWhile_append_all _ _ htw, List.cons_append,
                      List.dropWhile_cons, if_neg (by simp [he_not])]
                    simpa using he_ne
        rw [hgoal]
      · exact schemeSplit_none_head c _ (Bool.eq_false_iff.mpr hc)

theorem splitFirst_fst_sub (d : Char) (l : List Char) :
    ∀ x ∈ (splitFirst d l).1, x ∈ l := by
  induction l with
  | nil => simp [splitFirst]
  | cons c t ih =>
      rw [splitFirst]
      by_cases h : c = d
      · rw [if_pos h]
        simp
      · rw [if_neg h]
        intro x hx
        rcases List.mem_cons.mp hx with rfl | hx
        · exact List.mem_cons_self x t
        · exact List.mem_cons_of_mem c (ih x hx)

/-- Path and query produced by the `#`-then-`?` splits of a body `x`:
the path contains neither `#` nor `?`, the query contains no `#`. -/
theorem body_props (x : List Char) :
    '#' ∉ (splitFirst '?' (splitFirst '#' x).1).1 ∧
    '?' ∉ (splitFirst '?' (splitFirst '#' x).1).1 ∧
    '#' ∉ (splitFirst '?' (splitFirst '#' x).1).2 := by
  refine ⟨?_, splitFirst_fst_not_mem _ _, ?_⟩
  · intro hm
    exact splitFirst_fst_not_mem '#' x
      (splitFirst_fst_sub '?' _ _ hm)
  · intro hm
    exact splitFirst_fst_not_mem '#' x
      (splitFirst_snd_sub '?' _ _ hm)

/-- When the body follows a netloc, the parsed path is empty or starts
with a slash. -/
theorem netloc_path_head (y : List Char)
    (hy : y = [] ∨ ∃ c t, y = c :: t ∧ netlocEnd c = true) :
    (splitFirst '?' (splitFirst '#' y).1).1 = [] ∨
      (splitFirst '?' (splitFirst '#' y).1).1.head? = some '/' := by
  rcases hy with rfl | ⟨c, t, rfl, hc⟩
  · left
    rfl
  · simp only [netlocEnd, Bool.or_eq_true, decide_eq_true_eq] at hc
    rcases hc with (rfl | rfl) | rfl
    · right
      have h1 : (splitFirst '#' ('/' :: t)).1.head? = some '/' :=
        splitFirst_fst_head '#' '/' t (by decide)
      cases hf : (splitFirst '#' ('/' :: t)).1 with
      | nil => rw [hf] at h1; cases h1
      | cons d u =>
          rw [hf] at h1
          simp only [List.head?_cons, Option.some.injEq] at h1
          subst h1
          exact splitFirst_fst_head '?' '/' u (by decide)
  -- '?' head: the '#'-split keeps the head, then the '?'-split empties the path
    · left
      have h1 : splitFirst '#' ('?' :: t) = ('?' :: (splitFirst '#' t).1,
          (splitFirst '#' t).2) := by
        rw [splitFirst, if_neg (by decide)]
      rw [h1, splitFirst, if_pos rfl]
    · left
      have h1 : splitFirst '#' ('#' :: t) = ([], t) := by
        rw [splitFirst, if_pos rfl]
      rw [h1]
      rfl

/-! ### Evaluation lemmas for `urlsplit` under branch conditions -/

theorem urlsplit_eval_noscheme (u : List Char) (h : schemeSplit u = none)
    (h2 : u.take 2 ≠ ['/', '/']) :
    urlsplit u = ⟨[], [], (splitFirst '?' (splitFirst '#' u).1).1,
      (splitFirst '?' (splitFirst '#' u).1).2, (splitFirst '#' u).2⟩ := by
  rw [urlsplit, h]
  simp only [if_neg h2]

theorem urlsplit_eval_noscheme_slashes (u : List Char)
    (h : schemeSplit u = none) (h2 : u.take 2 = ['/', '/']) :
    urlsplit u = ⟨[], (splitNetloc (u.drop 2)).1,
      (splitFirst '?' (splitFirst '#' (splitNetloc (u.drop 2)).2).1).1,
      (splitFirst '?' (splitFirst '#' (splitNetloc (u.drop 2)).2).1).2,
      (splitFirst '#' (splitNetloc (u.drop 2)).2).2⟩ := by
  rw [urlsplit, h]
  simp only [if_pos h2]

theorem urlsplit_eval_scheme (u s r : List Char)
    (h : schemeSplit u = some (s, r)) (h2 : r.take 2 ≠ ['/', '/']) :
    urlsplit u = ⟨lowerStr s, [], (splitFirst '?' (splitFirst '#' r).1).1,
      (splitFirst '?' (splitFirst '#' r).1).2, (splitFirst '#' r).2⟩ := by
  rw [urlsplit, h]
  simp only [if_neg h2]

theorem urlsplit_eval_scheme_slashes (u s r : List Char)
    (h : schemeSplit u = some (s, r)) (h2 : r.take 2 = ['/', '/']) :
    urlsplit u = ⟨lowerStr s, (splitNetloc (r.drop 2)).1,
      (splitFirst '?' (splitFirst '#' (splitNetloc (r.drop 2)).2).1).1,
      (splitFirst '?' (splitFirst '#' (splitNetloc (r.drop 2)).2).1).2,
      (splitFirst '#' (splitNetloc (r.drop 2)).2).2⟩ := by
  rw [urlsplit, h]
  simp only [if_pos h2]

theorem qopt_head (q : List Char) : qopt q = [] ∨ (qopt q).head? = some '?' := by
  rw [qopt]
  split_ifs
  · exact Or.inl rfl
  · exact Or.inr rfl

theorem canonicalize_eq (u : List Char) :
    canonicalize_url u = urlunsplit ⟨lowerStr (urlsplit u).scheme,
      lowerStr (urlsplit u).netloc, pathT (urlsplit u).path,
      (urlsplit u).query, []⟩ := rfl

/-- Parsing the post-authority body `p ++ qopt q` recovers `(p, q)`. -/
theorem inner_body_parse (p q : List Char) (hpq : '?' ∉ p) (hph : '#' ∉ p)
    (hqh : '#' ∉ q) :
    (splitFirst '?' (splitFirst '#' (p ++ qopt q)).1).1 = p ∧
    (splitFirst '?' (splitFirst '#' (p ++ qopt q)).1).2 = q ∧
    (splitFirst '#' (p ++ qopt q)).2 = [] := by
  obtain ⟨h1, h2⟩ := body_parse p q hph hpq hqh
  exact ⟨by rw [h1, h2], by rw [h1, h2], by rw [h1]⟩

/-- The `urlunsplit` output in the netloc case. -/
theorem urlunsplit_netloc_eval (s n p q : List Char) (hn : n ≠ [])
    (hp : p.head? = some '/') :
    urlunsplit ⟨s, n, p, q, []⟩ =
      (if s = [] then [] else s ++ [':']) ++
        ('/' :: '/' :: (n ++ p) ++ qopt q) := by
  have h1 : ¬(p ≠ [] ∧ p.head? ≠ some '/') := by
    rintro ⟨_, hph2⟩
    exact hph2 hp
  rw [urlunsplit]
  simp only [ne_eq, if_pos (Or.inl hn), if_neg h1, qopt]
  by_cases hs : s = [] <;> by_cases hq : q = [] <;>
    simp [hs, hq, List.append_assoc]

/-- Fixpoint of `canonicalize_url` on already-canonical components, netloc
present. -/
theorem idem_netloc (s n p q : List Char)
    (hslow : lowerStr s = s)
    (hs : s = [] ∨ ∃ c a, s = c :: a ∧ asciiAlpha c = true ∧
      ∀ x ∈ a, schemeChar x = true)
    (hn : n ≠ []) (hnd : ∀ c ∈ n, netlocEnd c = false)
    (hnlow : lowerStr n = n)
    (hp : p.head? = some '/') (hpstable : pathT p = p)
    (hpq : '?' ∉ p) (hph : '#' ∉ p) (hqh : '#' ∉ q) :
    canonicalize_url (urlunsplit ⟨s, n, p, q, []⟩) =
      urlunsplit ⟨s, n, p, q, []⟩ := by
  obtain ⟨p0, pt0, rfl⟩ : ∃ c t, p = c :: t := by
    cases p with
    | nil => cases hp
    | cons c t => exact ⟨c, t, rfl⟩
  have hp0 : p0 = '/' := by
    simpa using hp
  subst hp0
  have hinner : splitNetloc (n ++ (('/' :: pt0) ++ qopt q)) =
      (n, ('/' :: pt0) ++ qopt q) :=
    splitNetloc_append n _ hnd (Or.inr ⟨'/', pt0 ++ qopt q, rfl, rfl⟩)
  have hbody := inner_body_parse ('/' :: pt0) q hpq hph hqh
  have hparse : urlsplit (urlunsplit ⟨s, n, '/' :: pt0, q, []⟩) =
      ⟨s, n, '/' :: pt0, q, []⟩ := by
    rw [urlunsplit_netloc_eval s n _ q hn hp]
    rcases hs with rfl | ⟨c, a, rfl, hca, haa⟩
    · rw [if_pos rfl, List.nil_append]
      have hsch : schemeSplit
          ('/' :: '/' :: (n ++ '/' :: pt0) ++ qopt q) = none :=
        schemeSplit_none_head _ _ rfl
      rw [urlsplit_eval_noscheme_slashes _ hsch rfl]
      rw [show List.drop 2 (('/' :: '/' :: (n ++ '/' :: pt0)) ++ qopt q) =
          (n ++ '/' :: pt0) ++ qopt q from rfl, List.append_assoc, hinner,
        hbody.1, hbody.2.1, hbody.2.2]
    · rw [if_neg (by simp)]
      have hx : ((c :: a) ++ [':']) ++
          ('/' :: '/' :: (n ++ '/' :: pt0) ++ qopt q) =
          c :: (a ++ ':' :: ('/' :: '/' :: (n ++ '/' :: pt0) ++ qopt q)) := by
        simp
      rw [hx]
      have hsch := schemeSplit_some_app c a
        ('/' :: '/' :: (n ++ '/' :: pt0) ++ qopt q) hca haa
      rw [urlsplit_eval_scheme_slashes _ _ _ hsch rfl]
      rw [show List.drop 2 (('/' :: '/' :: (n ++ '/' :: pt0)) ++ qopt q) =
          (n ++ '/' :: pt0) ++ qopt q from rfl, List.append_assoc, hinner,
        hbody.1, hbody.2.1, hbody.2.2, hslow]
  rw [canonicalize_eq, hparse]
  simp only [hslow, hnlow, hpstable]

theorem stable_no_trailing (p : List Char) (h : pathT p = p) :
    p = ['/'] ∨ p.getLast? ≠ some '/' := by
  by_cases hr : p = ['/']
  · exact Or.inl hr
  · right
    intro hl
    have hne : p ≠ [] := by
      rintro rfl
      cases hl
    have : pathT p = p.dropLast := by
      rw [pathT, emptyToRoot, if_neg hne, stripOneTrailingSlash,
        if_pos ⟨hr, hl⟩]
    rw [h] at this
    have hlen := congrArg List.length this
    rw [List.length_dropLast] at hlen
    have := List.length_pos.mpr hne
    omega

theorem append_take2_ne (p B : List Char) (hpne : p ≠ [])
    (hp2 : p.take 2 ≠ ['/', '/']) (hB : B = [] ∨ B.head? = some '?') :
    (p ++ B).take 2 ≠ ['/', '/'] := by
  intro hcon
  rw [take_two_slashes_iff] at hcon
  obtain ⟨h1, h2⟩ := hcon
  apply hp2
  rw [take_two_slashes_iff]
  cases p with
  | nil => exact absurd rfl hpne
  | cons x t =>
      simp only [List.cons_append, List.head?_cons] at h1 ⊢
      refine ⟨h1, ?_⟩
      simp only [List.tail_cons] at h2 ⊢
      cases t with
      | nil =>
          exfalso
          have h2' : B.head? = some '/' := by simpa using h2
          rcases hB with rfl | hBh
          · cases h2'
          · cases B with
            | nil => cases h2'
            | cons b bt =>
                simp only [List.head?_cons, Option.some.injEq] at hBh h2'
                subst hBh
                exact absurd h2' (by decide)
      | cons y t2 => simpa using h2

/-- `urlunsplit` output: empty netloc, scheme that uses an authority
marker, path already starting with a slash. -/
theorem urlunsplit_auth_eval (s p q : List Char) (hs : s ≠ [])
    (hu : s ∈ uses_netloc) (h2 : p.take 2 ≠ ['/', '/'])
    (hph : p.head? = some '/') :
    urlunsplit ⟨s, [], p, q, []⟩ = s ++ ':' :: (('/' :: '/' :: p) ++ qopt q) := by
  rw [urlunsplit]
  by_cases hq : q = []
  · subst hq; simp [qopt, hs, hu, h2, hph]
  · simp [qopt, hs, hu, h2, hph, hq]

/-- `urlunsplit` output: empty netloc, authority-marker scheme, path not
starting with a slash (the inner slash is prepended). -/
theorem urlunsplit_auth_prepend_eval (s p q : List Char) (hs : s ≠ [])
    (hu : s ∈ uses_netloc) (h2 : p.take 2 ≠ ['/', '/']) (hpn : p ≠ [])
    (hph : p.head? ≠ some '/') :
    urlunsplit ⟨s, [], p, q, []⟩ =
      s ++ ':' :: (('/' :: '/' :: '/' :: p) ++ qopt q) := by
  rw [urlunsplit]
  by_cases hq : q = []
  · subst hq; simp [qopt, hs, hu, h2, hpn, hph]
  · simp [qopt, hs, hu, h2, hpn, hph, hq]

/-- `urlunsplit` output: empty netloc and no authority marker. -/
theorem urlunsplit_plain_eval (s p q : List Char)
    (hno : s = [] ∨ s ∉ uses_netloc ∨ p.take 2 = ['/', '/']) :
    urlunsplit ⟨s, [], p, q, []⟩ =
      (if s = [] then [] else s ++ [':']) ++ (p ++ qopt q) := by
  rw [urlunsplit]
  rcases hno with rfl | hno | hno
  · by_cases hq : q = [] <;> simp [qopt, hq]
  · by_cases hs : s = [] <;> by_cases hq : q = [] <;>
      simp [qopt, hs, hq, hno]
  · by_cases hs : s = [] <;> by_cases hq : q = [] <;>
      simp [qopt, hs, hq, hno]

/-- Fixpoint of `canonicalize_url`, scheme present and netloc empty. -/
theorem idem_scheme_nonetloc (c : Char) (a : List Char) (p q : List Char)
    (hca : asciiAlpha c = true) (haa : ∀ x ∈ a, schemeChar x = true)
    (hslow : lowerStr (c :: a) = c :: a)
    (hpne : p ≠ []) (hpstable : pathT p = p)
    (hp2 : p.take 2 ≠ ['/', '/'])
    (hpq : '?' ∉ p) (hph : '#' ∉ p) (hqh : '#' ∉ q) :
    canonicalize_url (urlunsplit ⟨c :: a, [], p, q, []⟩) =
      urlunsplit ⟨c :: a, [], p, q, []⟩ := by
  have hbody := inner_body_parse p q hpq hph hqh
  by_cases hu : (c :: a) ∈ uses_netloc
  · by_cases hph2 : p.head? = some '/'
    · have hout := urlunsplit_auth_eval (c :: a) p q (by simp) hu hp2 hph2
      have hparse : urlsplit (urlunsplit ⟨c :: a, [], p, q, []⟩) =
          ⟨c :: a, [], p, q, []⟩ := by
        rw [hout, List.cons_append]
        have hsch := schemeSplit_some_app c a (('/' :: '/' :: p) ++ qopt q)
          hca haa
        rw [urlsplit_eval_scheme_slashes _ _ _ hsch rfl]
        rw [show List.drop 2 (('/' :: '/' :: p) ++ qopt q) = p ++ qopt q
          from rfl]
        have hnet : splitNetloc (p ++ qopt q) = ([], p ++ qopt q) := by
          cases p with
          | nil => exact absurd rfl hpne
          | cons x t =>
              have hx : x = '/' := by simpa using hph2
              subst hx
              rw [List.cons_append, splitNetloc, if_pos (show netlocEnd (Char.ofNat 47) = true by decide)]
        rw [hnet, hbody.1, hbody.2.1, hbody.2.2, hslow]
      rw [canonicalize_eq, hparse]
      simp only [hslow, hpstable]
      rfl
    · have hout := urlunsplit_auth_prepend_eval (c :: a) p q (by simp) hu
        hp2 hpne hph2
      have hplast : ('/' :: p).getLast? ≠ some '/' := by
        rcases stable_no_trailing p hpstable with rfl | hl
        · exact absurd rfl hph2
        · cases p with
          | nil => exact absurd rfl hpne
          | cons x t =>
              rw [List.getLast?_cons_cons]
              exact hl
      have hbody2 := inner_body_parse ('/' :: p) q
        (by simp [hpq]) (by simp [hph]) hqh
      have hparse : urlsplit (urlunsplit ⟨c :: a, [], p, q, []⟩) =
          ⟨c :: a, [], '/' :: p, q, []⟩ := by
        rw [hout, List.cons_append]
        have hsch := schemeSplit_some_app c a
          (('/' :: '/' :: '/' :: p) ++ qopt q) hca haa
        rw [urlsplit_eval_scheme_slashes _ _ _ hsch rfl]
        rw [show List.drop 2 (('/' :: '/' :: '/' :: p) ++ qopt q) =
          ('/' :: p) ++ qopt q from rfl]
        have hnet : splitNetloc (('/' :: p) ++ qopt q) =
            ([], ('/' :: p) ++ qopt q) := by
          rw [List.cons_append, splitNetloc, if_pos (show netlocEnd (Char.ofNat 47) = true by decide)]
        rw [hnet, hbody2.1, hbody2.2.1, hbody2.2.2, hslow]
      rw [canonicalize_eq, hparse]
      simp only [hslow]
      have hpT : pathT ('/' :: p) = '/' :: p :=
        pathT_no_trailing _ hplast (by simp)
      have htk : ('/' :: p).take 2 ≠ ['/', '/'] := by
        intro hcon
        rw [take_two_slashes_iff] at hcon
        obtain ⟨-, hx2⟩ := hcon
        simp only [List.tail_cons] at hx2
        exact hph2 hx2
      rw [show lowerStr [] = [] from rfl, hpT, hout,
        urlunsplit_auth_eval (c :: a) ('/' :: p) q (by simp) hu htk rfl]
  · have hout := urlunsplit_plain_eval (c :: a) p q (Or.inr (Or.inl hu))
    rw [if_neg (by simp)] at hout
    have hparse : urlsplit (urlunsplit ⟨c :: a, [], p, q, []⟩) =
        ⟨c :: a, [], p, q, []⟩ := by
      have hx : (c :: a ++ [':']) ++ (p ++ qopt q) =
          c :: (a ++ ':' :: (p ++ qopt q)) := by
        simp
      rw [hout, hx]
      have hsch := schemeSplit_some_app c a (p ++ qopt q) hca haa
      have htk := append_take2_ne p (qopt q) hpne hp2 (qopt_head q)
      rw [urlsplit_eval_scheme _ _ _ hsch htk, hbody.1, hbody.2.1,
        hbody.2.2, hslow]
    rw [canonicalize_eq, hparse]
    simp only [hslow, hpstable]
    rfl

/-- Fixpoint of `canonicalize_url`, no scheme and no netloc. -/
theorem idem_noscheme_nonetloc (p q : List Char)
    (hnos : schemeSplit (p ++ qopt q) = none)
    (hpne : p ≠ []) (hpstable : pathT p = p)
    (hp2 : p.take 2 ≠ ['/', '/'])
    (hpq : '?' ∉ p) (hph : '#' ∉ p) (hqh : '#' ∉ q) :
    canonicalize_url (urlunsplit ⟨[], [], p, q, []⟩) =
      urlunsplit ⟨[], [], p, q, []⟩ := by
  have hbody := inner_body_parse p q hpq hph hqh
  have hout := urlunsplit_plain_eval [] p q (Or.inl rfl)
  rw [if_pos rfl, List.nil_append] at hout
  have hparse : urlsplit (urlunsplit ⟨[], [], p, q, []⟩) =
      ⟨[], [], p, q, []⟩ := by
    rw [hout]
    have htk := append_take2_ne p (qopt q) hpne hp2 (qopt_head q)
    rw [urlsplit_eval_noscheme _ hnos htk, hbody.1, hbody.2.1, hbody.2.2]
  rw [canonicalize_eq, hparse]
  simp only [hpstable]
  rfl


/-- Structural invariants of `urlsplit` output: scheme shape and casing,
netloc free of delimiters, path free of `#` and `?`, query free of `#`,
path rooted whenever a netloc was parsed, and — in the no-scheme case —
a rooted path or a path that is a prefix of the input. -/
theorem urlsplit_inv (u : List Char) :
    ((urlsplit u).scheme = [] ∧ schemeSplit u = none ∨
      ∃ c a, (urlsplit u).scheme = c :: a ∧ asciiAlpha c = true ∧
        (∀ x ∈ a, schemeChar x = true) ∧ lowerStr (c :: a) = c :: a) ∧
    (∀ c ∈ (urlsplit u).netloc, netlocEnd c = false) ∧
    '#' ∉ (urlsplit u).path ∧ '?' ∉ (urlsplit u).path ∧
    '#' ∉ (urlsplit u).query ∧
    ((urlsplit u).netloc ≠ [] → (urlsplit u).path = [] ∨
      (urlsplit u).path.head? = some '/') ∧
    (schemeSplit u = none → (urlsplit u).path = [] ∨
      (urlsplit u).path.head? = some '/' ∨
      ∃ mid, u = (urlsplit u).path ++ mid) := by
  cases hsp : schemeSplit u with
  | none =>
      by_cases h2 : u.take 2 = ['/', '/']
      · have hu := urlsplit_eval_noscheme_slashes u hsp h2
        have hy := (splitNetloc_decomp (u.drop 2)).2
        refine ⟨Or.inl ⟨by rw [hu], rfl⟩, ?_, ?_, ?_, ?_, ?_, ?_⟩
        · rw [hu]; exact splitNetloc_fst_no_delim _
        · rw [hu]; exact (body_props _).1
        · rw [hu]; exact (body_props _).2.1
        · rw [hu]; exact (body_props _).2.2
        · rw [hu]; intro _; exact netloc_path_head _ hy
        · rw [hu]; intro _
          rcases netloc_path_head _ hy with hp | hp
          · exact Or.inl hp
          · exact Or.inr (Or.inl hp)
      · have hu := urlsplit_eval_noscheme u hsp h2
        refine ⟨Or.inl ⟨by rw [hu], rfl⟩, ?_, ?_, ?_, ?_, ?_, ?_⟩
        · rw [hu]; exact fun c hc => absurd hc (List.not_mem_nil c)
        · rw [hu]; exact (body_props _).1
        · rw [hu]; exact (body_props _).2.1
        · rw [hu]; exact (body_props _).2.2
        · rw [hu]; exact fun h => absurd rfl h
        · intro _
          right; right
          obtain ⟨m1, hm1, _⟩ := splitFirst_decomp (Char.ofNat 35) u
          obtain ⟨m2, hm2, _⟩ :=
            splitFirst_decomp (Char.ofNat 63) (splitFirst (Char.ofNat 35) u).1
          refine ⟨m2 ++ m1, ?_⟩
          rw [hu]
          show u = (splitFirst (Char.ofNat 63)
            (splitFirst (Char.ofNat 35) u).1).1 ++ (m2 ++ m1)
          rw [← List.append_assoc, ← hm2, ← hm1]
  | some pr =>
      obtain ⟨s, rr⟩ := pr
      obtain ⟨c, a, hseq, hca, haa, _⟩ := schemeSplit_some_decomp u s rr hsp
      have hshape : ∃ c0 a0, lowerStr s = c0 :: a0 ∧ asciiAlpha c0 = true ∧
          (∀ x ∈ a0, schemeChar x = true) ∧
          lowerStr (c0 :: a0) = c0 :: a0 := by
        refine ⟨Char.toLower c, lowerStr a, by rw [hseq]; rfl,
          by rw [asciiAlpha_toLower]; exact hca, ?_, ?_⟩
        · intro x hx
          obtain ⟨y, hy, rfl⟩ := List.mem_map.mp hx
          rw [schemeChar_toLower]
          exact haa y hy
        · exact lowerStr_idem (c :: a)
      by_cases h2 : rr.take 2 = ['/', '/']
      · have hu := urlsplit_eval_scheme_slashes u s rr hsp h2
        have hy := (splitNetloc_decomp (rr.drop 2)).2
        refine ⟨Or.inr ?_, ?_, ?_, ?_, ?_, ?_, ?_⟩
        · obtain ⟨c0, a0, he, hc0, ha0, hl0⟩ := hshape
          exact ⟨c0, a0, by rw [hu]; exact he, hc0, ha0, hl0⟩
        · rw [hu]; exact splitNetloc_fst_no_delim _
        · rw [hu]; exact (body_props _).1
        · rw [hu]; exact (body_props _).2.1
        · rw [hu]; exact (body_props _).2.2
        · rw [hu]; intro _; exact netloc_path_head _ hy
        · intro hcon; cases hcon
      · have hu := urlsplit_eval_scheme u s rr hsp h2
        refine ⟨Or.inr ?_, ?_, ?_, ?_, ?_, ?_, ?_⟩
        · obtain ⟨c0, a0, he, hc0, ha0, hl0⟩ := hshape
          exact ⟨c0, a0, by rw [hu]; exact he, hc0, ha0, hl0⟩
        · rw [hu]; exact fun c hc => absurd hc (List.not_mem_nil c)
        · rw [hu]; exact (body_props _).1
        · rw [hu]; exact (body_props _).2.1
        · rw [hu]; exact (body_props _).2.2
        · rw [hu]; exact fun h => absurd rfl h
        · intro hcon; cases hcon

/-- Assembly: `canonicalize_url` fixes its own output when no netloc was
parsed. -/
theorem idem_nonetloc_assemble (S path q : List Char)
    (hS : S = [] ∨ ∃ c a, S = c :: a ∧ asciiAlpha c = true ∧
      ∀ x ∈ a, schemeChar x = true)
    (hSlow : lowerStr S = S)
    (hnos : S = [] → schemeSplit (pathT path ++ qopt q) = none)
    (hds : ¬endsDoubleSlash path)
    (htk : path.take 2 ≠ ['/', '/'])
    (hpq : '?' ∉ path) (hph : '#' ∉ path) (hqh : '#' ∉ q) :
    canonicalize_url (urlunsplit ⟨S, [], pathT path, q, []⟩) =
      urlunsplit ⟨S, [], pathT path, q, []⟩ := by
  have hp2 : (pathT path).take 2 ≠ ['/', '/'] :=
    fun hcon => htk ((pathT_take_two path hds).mp hcon)
  have hpq2 : '?' ∉ pathT path := pathT_not_mem path '?' (by decide) hpq
  have hph2 : '#' ∉ pathT path := pathT_not_mem path '#' (by decide) hph
  rcases hS with rfl | ⟨c, a, rfl, hca, haa⟩
  · exact idem_noscheme_nonetloc (pathT path) q (hnos rfl)
      (pathT_ne_nil path) (pathT_stable path hds) hp2 hpq2 hph2 hqh
  · exact idem_scheme_nonetloc c a (pathT path) q hca haa hSlow
      (pathT_ne_nil path) (pathT_stable path hds) hp2 hpq2 hph2 hqh

/-- Assembly: `canonicalize_url` fixes its own output when a netloc was
parsed. -/
theorem idem_netloc_assemble (S n path q : List Char)
    (hS : S = [] ∨ ∃ c a, S = c :: a ∧ asciiAlpha c = true ∧
      ∀ x ∈ a, schemeChar x = true)
    (hSlow : lowerStr S = S) (hn : n ≠ [])
    (hnd : ∀ c ∈ n, netlocEnd c = false) (hnlow : lowerStr n = n)
    (hph0 : path = [] ∨ path.head? = some '/')
    (hds : ¬endsDoubleSlash path)
    (hpq : '?' ∉ path) (hph : '#' ∉ path) (hqh : '#' ∉ q) :
    canonicalize_url (urlunsplit ⟨S, n, pathT path, q, []⟩) =
      urlunsplit ⟨S, n, pathT path, q, []⟩ := by
  have hp : (pathT path).head? = some '/' := by
    rcases hph0 with rfl | hh
    · rfl
    · have hne : path ≠ [] := by
        intro h0
        rw [h0] at hh
        simp at hh
      rw [pathT_head path hne]
      exact hh
  exact idem_netloc S n (pathT path) q hSlow hS hn hnd hnlow hp
    (pathT_stable path hds) (pathT_not_mem path '?' (by decide) hpq)
    (pathT_not_mem path '#' (by decide) hph) hqh

/-- Idempotence of `canonicalize_url` away from the two boundary
situations: a parsed path ending in a double slash, and a netloc-free
parse whose path begins with `//`. -/
theorem canonicalize_idem (u : List Char)
    (hds : ¬endsDoubleSlash (urlsplit u).path)
    (hns : ¬((urlsplit u).netloc = [] ∧
      (urlsplit u).path.take 2 = ['/', '/'])) :
    canonicalize_url (canonicalize_url u) = canonicalize_url u := by
  obtain ⟨hsch, hnd, hph, hpq, hqh, hnp, hno⟩ := urlsplit_inv u
  have hS : lowerStr (urlsplit u).scheme = [] ∨
      ∃ c a, lowerStr (urlsplit u).scheme = c :: a ∧
        asciiAlpha c = true ∧ ∀ x ∈ a, schemeChar x = true := by
    rcases hsch with ⟨hsc0, _⟩ | ⟨c, a, heq, hca, haa, hlow⟩
    · left
      rw [hsc0]
      rfl
    · right
      exact ⟨c, a, by rw [heq]; exact hlow, hca, haa⟩
  rw [canonicalize_eq u]
  by_cases hn : (urlsplit u).netloc = []
  · have htk : (urlsplit u).path.take 2 ≠ ['/', '/'] :=
      fun hcon => hns ⟨hn, hcon⟩
    have hnos : lowerStr (urlsplit u).scheme = [] →
        schemeSplit (pathT (urlsplit u).path ++
          qopt (urlsplit u).query) = none := by
      intro hS0
      have hsc0 : (urlsplit u).scheme = [] := by
        cases hsc : (urlsplit u).scheme with
        | nil => rfl
        | cons d t =>
            rw [hsc] at hS0
            simp [lowerStr] at hS0
      have hnone : schemeSplit u = none := by
        rcases hsch with ⟨_, hx⟩ | ⟨c, a, heq, _, _, _⟩
        · exact hx
        · rw [hsc0] at heq
          cases heq
      rcases hno hnone with hp0 | hp1 | ⟨mid, hmid⟩
      · rw [hp0, pathT_nil]
        exact schemeSplit_none_head (Char.ofNat 47) _ (by decide)
      · have hne : (urlsplit u).path ≠ [] := by
          intro h0
          rw [h0] at hp1
          simp at hp1
        have hh : (pathT (urlsplit u).path).head? = some '/' := by
          rw [pathT_head _ hne]
          exact hp1
        cases hpt : pathT (urlsplit u).path with
        | nil => rw [hpt] at hh; simp at hh
        | cons d t =>
            rw [hpt] at hh
            simp only [List.head?_cons, Option.some.injEq] at hh
            subst hh
            exact schemeSplit_none_head (Char.ofNat 47) _ (by decide)
      · exact crux_no_scheme _ mid _ (by rw [← hmid]; exact hnone)
          (qopt_head _)
    rw [hn, show lowerStr ([] : List Char) = [] from rfl]
    exact idem_nonetloc_assemble (lowerStr (urlsplit u).scheme)
      (urlsplit u).path (urlsplit u).query hS (lowerStr_idem _) hnos hds
      htk hpq hph hqh
  · exact idem_netloc_assemble (lowerStr (urlsplit u).scheme)
      (lowerStr (urlsplit u).netloc) (urlsplit u).path (urlsplit u).query
      hS (lowerStr_idem _)
      (fun h0 => hn (by simpa [lowerStr] using h0))
      (fun c hc => by
        obtain ⟨d, hd, rfl⟩ := List.mem_map.mp hc
        rw [netlocEnd_toLower]
        exact hnd d hd)
      (lowerStr_idem _) (hnp hn) hds hpq hph hqh




/-- C5 (amended): `canonicalize_url` applies exactly the spec's rules —
lower-case scheme and host, drop the fragment, replace an empty path
with `/`, strip one trailing slash from a non-root path, keep the query
— for every input; but it is idempotent only away from two boundary
cases: for a printable-ASCII, bracket-free URL it is idempotent provided
the parsed path does not end in a double slash and a netloc-free parse
does not yield a path beginning with `//`.  (Unrestricted idempotence is
refuted by the counterexample.) -/
theorem C5_canonicalize_idempotent :
    (∀ u : List Char, canonicalize_url u = canonicalizeSpec u) ∧
    (∀ u : List Char,
      (∀ c ∈ u, 32 < c.toNat ∧ c.toNat < 127) →
      Char.ofNat 91 ∉ u → Char.ofNat 93 ∉ u →
      ¬endsDoubleSlash (urlsplit u).path →
      ¬((urlsplit u).netloc = [] ∧
        (urlsplit u).path.take 2 = ['/', '/']) →
      canonicalize_url (canonicalize_url u) = canonicalize_url u) :=
  ⟨fun _ => rfl, fun u _ _ _ hds hns => canonicalize_idem u hds hns⟩

/-- Witness for C5: the amended idempotence applied to a concrete URL
(upper-case host, trailing slash, query), all hypotheses discharged by
evaluation. -/
theorem C5_canonicalize_idempotent_witness :
    canonicalize_url
        (canonicalize_url "http://Example.COM/A/b/?q=1".toList) =
      canonicalize_url "http://Example.COM/A/b/?q=1".toList :=
  C5_canonicalize_idempotent.2 "http://Example.COM/A/b/?q=1".toList
    (by decide) (by decide) (by decide) (by decide) (by decide)

/-- C5 counterexample: `canonicalize_url` is *not* idempotent on every
URL — a path ending in `//` loses exactly one slash per application, so
a second application changes the result again. -/
theorem C5_canonicalize_idempotent_counterexample :
    canonicalizeUrlStr "http://x/a//" = "http://x/a/" ∧
    canonicalizeUrlStr "http://x/a/" = "http://x/a" ∧
    canonicalize_url (canonicalize_url "http://x/a//".toList) ≠
      canonicalize_url "http://x/a//".toList := by
  refine ⟨?_, ?_, ?_⟩ <;> decide



/-! ### The proof-pack builder (`src/proofpack/builder.py`) -/

/-- One character of `json.dumps` output (the default `ensure_ascii`):
codepoints from space to tilde other than the quote and the backslash pass
through, the two-character JSON escapes cover the usual shorthands, and
every other character becomes a `\uXXXX` escape (two of them, a surrogate
pair, above `0xFFFF`). -/
def jsonEscapeChar (c : Char) : List Char :=
  if c = '"' then ['\\', '"']
  else if c = '\\' then ['\\', '\\']
  else if c.toNat = 8 then ['\\', 'b']
  else if c.toNat = 9 then ['\\', 't']
  else if c.toNat = 10 then ['\\', 'n']
  else if c.toNat = 12 then ['\\', 'f']
  else if c.toNat = 13 then ['\\', 'r']
  else if c.toNat < 32 ∨ 127 ≤ c.toNat then
    if c.toNat < 65536 then
      ['\\', 'u', hexDigit (c.toNat / 4096 % 16), hexDigit (c.toNat / 256 % 16),
        hexDigit (c.toNat / 16 % 16), hexDigit (c.toNat % 16)]
    else
      ['\\', 'u', hexDigit ((55296 + (c.toNat - 65536) / 1024) / 4096 % 16),
        hexDigit ((55296 + (c.toNat - 65536) / 1024) / 256 % 16),
        hexDigit ((55296 + (c.toNat - 65536) / 1024) / 16 % 16),
        hexDigit ((55296 + (c.toNat - 65536) / 1024) % 16)] ++
      ['\\', 'u', hexDigit ((56320 + (c.toNat - 65536) % 1024) / 4096 % 16),
        hexDigit ((56320 + (c.toNat - 65536) % 1024) / 256 % 16),
        hexDigit ((56320 + (c.toNat - 65536) % 1024) / 16 % 16),
        hexDigit ((56320 + (c.toNat - 65536) % 1024) % 16)]
  else [c]

/-- A JSON string literal as `json.dumps` renders it. -/
def jsonQuote (s : String) : List Char :=
  '"' :: ((s.toList.map jsonEscapeChar).flatten ++ ['"'])

/-- A JSON value as `build_proof_pack` assembles one. -/
inductive JVal where
  | jstr (s : String)
  | jnum (n : Nat)
  | jnull
  | jarr (elts : List JVal)
  | jobj (fields : List (String × JVal))

/-- Code-point lexicographic comparison of character lists (Python
`str.__lt__`, the order `sorted` and `sort_keys` use). -/
def strLtChars : List Char → List Char → Bool
  | [], [] => false
  | [], _ :: _ => true
  | _ :: _, [] => false
  | a :: as, b :: bs =>
      if a.toNat < b.toNat then true
      else if b.toNat < a.toNat then false
      else strLtChars as bs

/-- Python string `<` on `String` values. -/
def keyLt (a b : String) : Bool := strLtChars a.toList b.toList

/-- Insert one key/value pair into a key-sorted field list (strictly
before the first greater key, after equal ones). -/
def insertField (kv : String × JVal) : List (String × JVal) → List (String × JVal)
  | [] => [kv]
  | f :: t => if keyLt kv.1 f.1 then kv :: f :: t else f :: insertField kv t

/-- Sort an object's fields by key (`json.dumps(..., sort_keys=True)`). -/
def sortFields : List (String × JVal) → List (String × JVal)
  | [] => []
  | kv :: t => insertField kv (sortFields t)

/-- Concatenate rendered pieces with a separator between them. -/
def jjoin (sep : List Char) : List (List Char) → List Char
  | [] => []
  | [x] => x
  | x :: y :: t => x ++ (sep ++ jjoin sep (y :: t))

/-- Sort every object's fields, recursively (the effect of
`sort_keys=True` on the whole document); the fuel bounds the nesting
depth, kept structural so that evaluation reduces in the kernel. -/
def sortJValF : Nat → JVal → JVal
  | _, .jstr s => .jstr s
  | _, .jnum n => .jnum n
  | _, .jnull => .jnull
  | 0, v => v
  | fuel + 1, .jarr l => .jarr (l.map (sortJValF fuel))
  | fuel + 1, .jobj f =>
      .jobj (sortFields (f.map (fun kv => (kv.1, sortJValF fuel kv.2))))

/-- `sort_keys=True` over a whole document (the builder's documents nest
three levels deep; the depth budget of 8 is ample). -/
def sortJVal (v : JVal) : JVal := sortJValF 8 v

/-- Compact `json.dumps` (default separators `", "` and `": "`), keys
assumed already sorted; the fuel bounds the nesting depth. -/
def dumpsCF : Nat → JVal → List Char
  | _, .jstr s => jsonQuote s
  | _, .jnum n => (Nat.repr n).toList
  | _, .jnull => "null".toList
  | 0, .jarr _ => []
  | 0, .jobj _ => []
  | fuel + 1, .jarr l => '[' :: (jjoin [',', ' '] (l.map (dumpsCF fuel)) ++ [']'])
  | fuel + 1, .jobj f =>
      Char.ofNat 123 :: (jjoin [',', ' '] (f.map (fun kv =>
        jsonQuote kv.1 ++ ':' :: ' ' :: dumpsCF fuel kv.2)) ++ [Char.ofNat 125])

/-- Compact `json.dumps`, depth budget 8. -/
def dumpsC (v : JVal) : List Char := dumpsCF 8 v

/-- A newline followed by `indent=2` indentation at nesting `lvl`. -/
def nlIndent (lvl : Nat) : List Char := '\n' :: List.replicate (2 * lvl) ' '

/-- `json.dumps(..., indent=2)` (separators `","` and `": "`), keys
assumed already sorted; the fuel bounds the nesting depth. -/
def dumpsIF : Nat → Nat → JVal → List Char
  | _, _, .jstr s => jsonQuote s
  | _, _, .jnum n => (Nat.repr n).toList
  | _, _, .jnull => "null".toList
  | 0, _, .jarr _ => []
  | 0, _, .jobj _ => []
  | _ + 1, _, .jarr [] => ['[', ']']
  | fuel + 1, lvl, .jarr (x :: t) =>
      '[' :: (jjoin [','] ((x :: t).map (fun e =>
          nlIndent (lvl + 1) ++ dumpsIF fuel (lvl + 1) e)) ++
        (nlIndent lvl ++ [']']))
  | _ + 1, _, .jobj [] => [Char.ofNat 123, Char.ofNat 125]
  | fuel + 1, lvl, .jobj (f :: t) =>
      Char.ofNat 123 :: (jjoin [','] ((f :: t).map (fun kv =>
          nlIndent (lvl + 1) ++ (jsonQuote kv.1 ++ ':' :: ' ' ::
            dumpsIF fuel (lvl + 1) kv.2))) ++
        (nlIndent lvl ++ [Char.ofNat 125]))

/-- `json.dumps(..., indent=2)` at the top level, depth budget 8. -/
def dumpsI (lvl : Nat) (v : JVal) : List Char := dumpsIF 8 lvl v

/-- `json.dumps(v, sort_keys=True)`. -/
def pyJsonDumpsSorted (v : JVal) : String := String.mk (dumpsC (sortJVal v))

/-- `json.dumps(v, sort_keys=True, indent=2)`. -/
def pyJsonDumpsSortedIndent2 (v : JVal) : String :=
  String.mk (dumpsI 0 (sortJVal v))

/-- `str.replace(pat, "")`: remove every (non-overlapping, leftmost)
occurrence of `pat`; the fuel is the remaining length. -/
def replaceGo (pat : List Char) : Nat → List Char → List Char
  | _, [] => []
  | 0, l => l
  | fuel + 1, c :: t =>
    if (c :: t).take pat.length = pat then
      replaceGo pat fuel ((c :: t).drop pat.length)
    else c :: replaceGo pat fuel t

/-- `str.replace(pat, "")` over character lists. -/
def removeAll (pat l : List Char) : List Char := replaceGo pat l.length l

/-- `str.strip(set)`: drop characters of `cs` from both ends. -/
def stripSet (cs : List Char) (l : List Char) : List Char :=
  ((l.dropWhile (fun c => cs.contains c)).reverse.dropWhile
    (fun c => cs.contains c)).reverse

/-- A hexadecimal digit as `int(_, 16)` accepts one. -/
def isHexDigitChar (c : Char) : Bool :=
  asciiDigit c || (65 ≤ c.toNat && c.toNat ≤ 70) ||
    (97 ≤ c.toNat && c.toNat ≤ 102)

/-- `str(uuid.UUID(...))`: the canonical lowercase 8-4-4-4-12 form of 32
hexadecimal digits. -/
def uuidCanon (h : List Char) : String :=
  let l := h.map Char.toLower
  String.mk (l.take 8 ++ '-' :: ((l.drop 8).take 4 ++ '-' ::
    ((l.drop 12).take 4 ++ '-' :: ((l.drop 16).take 4 ++ '-' :: l.drop 20))))

/-- `uuid.UUID(source_id)`, as the canonical string of the parsed UUID, or
`none` for the `ValueError`: remove every `urn:` and `uuid:`, strip
curly braces from the ends, remove all dashes, and require exactly 32
hexadecimal digits (the stricter reading of `int(hex, 16)`: its
tolerance for underscores, a sign or an `0x` prefix inside a 32-character
string is not modeled). -/
def parseUUID (s : String) : Option String :=
  let h := removeAll "-".toList (stripSet [Char.ofNat 123, Char.ofNat 125]
    (removeAll "uuid:".toList (removeAll "urn:".toList s.toList)))
  if h.length = 32 && h.all isHexDigitChar then some (uuidCanon h) else none

/-- A `Capture` row, the columns `build_proof_pack` reads (`captured_at`
carried as its `isoformat()` string, which the ascending `ORDER BY` then
matches as string order). -/
structure CaptureRec where
  id : String
  source_id : String
  org_id : String
  prev_capture_id : Option String
  captured_at : String
  raw_bytes_sha256 : String
  normalized_text_sha256 : String
  chain_sha256 : Option String
deriving DecidableEq, Repr

/-- The build instant: `time.localtime(time.time())[:6]` as
`zipfile.writestr` stamps it into each entry header, `now.isoformat()`,
and `now.strftime("%Y%m%dT%H%M%SZ")` for the filename. -/
structure Now where
  localtime6 : Nat × Nat × Nat × Nat × Nat × Nat
  iso : String
  stamp : String
deriving DecidableEq, Repr

/-- One archive entry as `zipfile.writestr` records it: name, the
`date_time` header stamped from the current local time, and the payload
(serialization and DEFLATE compression abstracted away). -/
structure ZipEntry where
  name : String
  date_time : Nat × Nat × Nat × Nat × Nat × Nat
  data : List Nat
deriving DecidableEq, Repr

/-- The exceptions `build_proof_pack` raises: `uuid.UUID`'s
`ValueError`, the explicit `ValueError` for a missing source, and the
guard's `AssertionError`. -/
inductive BuildError where
  | valueErrorBadUUID
  | valueErrorNotFound (msg : String)
  | assertionError (msg : String)
deriving DecidableEq, Repr

deriving instance DecidableEq for Except

/-- Insert one capture into a list ascending by `captured_at` (after any
equal key: a stable sort). -/
def insertCapture (c : CaptureRec) : List CaptureRec → List CaptureRec
  | [] => [c]
  | d :: t =>
    if keyLt c.captured_at d.captured_at then c :: d :: t
    else d :: insertCapture c t

/-- The capture query's `ORDER BY captured_at ASC`. -/
def sortByCapturedAt (l : List CaptureRec) : List CaptureRec :=
  l.foldl (fun acc c => insertCapture c acc) []

/-- The capture query: rows of the source and org, ascending by
`captured_at`, first `limit` of them. -/
def capturesFor (captures_db : List CaptureRec) (source_uuid : String)
    (limit : Nat) : List CaptureRec :=
  (sortByCapturedAt (captures_db.filter
    (fun c => c.source_id == source_uuid && c.org_id == V1_ORG_ID))).take limit

/-- An optional string as a JSON value (`None` becomes `null`). -/
def jOptStr : Option String → JVal
  | some s => .jstr s
  | none => .jnull

/-- One timeline item (insertion order of the Python dict literal; a
`sort_keys` dump reorders it). -/
def timelineItem (canonical_url : String) (c : CaptureRec) : JVal :=
  .jobj [("id", .jstr c.id),
    ("prev_capture_id", jOptStr c.prev_capture_id),
    ("captured_at", .jstr c.captured_at),
    ("canonical_url", .jstr canonical_url),
    ("raw_bytes_sha256", .jstr c.raw_bytes_sha256),
    ("normalized_text_sha256", .jstr c.normalized_text_sha256),
    ("chain_sha256", jOptStr c.chain_sha256)]

/-- `timeline_data`. -/
def timelineData (source_id : String) (items : List JVal) : JVal :=
  .jobj [("source_id", .jstr source_id), ("items", .jarr items)]

/-- `manifest_data` (insertion order of the Python dict literal). -/
def manifestData (source_id generated_at : String) (capture_count : Nat)
    (timeline_sha256 methodology_sha256 verify_py_sha256 : String) : JVal :=
  .jobj [("source_id", .jstr source_id),
    ("generated_at", .jstr generated_at),
    ("hash_algo", .jstr "sha256"),
    ("capture_count", .jnum capture_count),
    ("files", .jarr [
      .jobj [("path", .jstr "timeline.json"), ("sha256", .jstr timeline_sha256)],
      .jobj [("path", .jstr "methodology.md"),
        ("sha256", .jstr methodology_sha256)],
      .jobj [("path", .jstr "verify.py"), ("sha256", .jstr verify_py_sha256)]])]

/-- `methodology_content`. -/
def methodology_content : String :=
  "# Methodology\n\nThis Proof Pack contains source verification data.\n"

/-- The lines of `verify_py_content` (kept as separate literals so that
kernel evaluation expands only short strings at a time). -/
def verify_py_lines : List String :=
  ["#!/usr/bin/env python3",
   "import hashlib",
   "import json",
   "import sys",
   "from pathlib import Path",
   "",
   "def main():",
   "    # Verify all files listed in manifest.json by SHA256",
   "    manifest_path = Path(\"manifest.json\")",
   "    if not manifest_path.exists():",
   "        print(\"FAIL: manifest.json not found\")",
   "        sys.exit(1)",
   "    ",
   "    with open(manifest_path, \"rb\") as f:",
   "        manifest_data = json.loads(f.read().decode(\"utf-8\"))",
   "    ",
   "    files = manifest_data.get(\"files\", [])",
   "    for file_entry in files:",
   "        file_path = Path(file_entry[\"path\"])",
   "        expected_hash = file_entry[\"sha256\"]",
   "        ",
   "        if not file_path.exists():",
   "            print(f\"FAIL: {file_path} not found\")",
   "            sys.exit(1)",
   "        ",
   "        with open(file_path, \"rb\") as f:",
   "            file_bytes = f.read()",
   "        ",
   "        computed_hash = hashlib.sha256(file_bytes).hexdigest()",
   "        ",
   "        if computed_hash != expected_hash:",
   "            print(f\"FAIL: {file_path} hash mismatch\")",
   "            sys.exit(1)",
   "    ",
   "    print(\"PASS: all files verified\")",
   "    ",
   "    # Verify capture hash chain using timeline.json items",
   "    timeline_path = Path(\"timeline.json\")",
   "    if not timeline_path.exists():",
   "        sys.exit(0)",
   "    ",
   "    with open(timeline_path, \"rb\") as f:",
   "        timeline_data = json.loads(f.read().decode(\"utf-8\"))",
   "    ",
   "    items = timeline_data.get(\"items\", [])",
   "    if not items:",
   "        sys.exit(0)",
   "    ",
   "    # Check if chain_sha256 fields are missing",
   "    has_chain_sha256 = any(item.get(\"chain_sha256\") is not None for item in items)",
   "    if not has_chain_sha256:",
   "        print(\"SKIP: timeline items missing chain_sha256; not verifying chain\")",
   "        sys.exit(0)",
   "    ",
   "    # Replay chain verification",
   "    prev_chain = None",
   "    ",
   "    for idx, item in enumerate(items):",
   "        item_id = item.get(\"id\")",
   "        prev_capture_id = item.get(\"prev_capture_id\")",
   "        captured_at_iso = item.get(\"captured_at\")",
   "        canonical_url = item.get(\"canonical_url\")",
   "        raw_sha = item.get(\"raw_bytes_sha256\")",
   "        norm_sha = item.get(\"normalized_text_sha256\")",
   "        chain_sha256 = item.get(\"chain_sha256\")",
   "        ",
   "        # Validate required fields",
   "        if not item_id:",
   "            print(f\"FAIL: item[{idx}] missing id\")",
   "            sys.exit(1)",
   "        if captured_at_iso is None:",
   "            print(f\"FAIL: item[{idx}] missing captured_at\")",
   "            sys.exit(1)",
   "        if canonical_url is None:",
   "            print(f\"FAIL: item[{idx}] missing canonical_url\")",
   "            sys.exit(1)",
   "        if raw_sha is None:",
   "            print(f\"FAIL: item[{idx}] missing raw_bytes_sha256\")",
   "            sys.exit(1)",
   "        if norm_sha is None:",
   "            print(f\"FAIL: item[{idx}] missing normalized_text_sha256\")",
   "            sys.exit(1)",
   "        if chain_sha256 is None:",
   "            print(f\"FAIL: item[{idx}] missing chain_sha256\")",
   "            sys.exit(1)",
   "        ",
   "        # Validate prev_capture_id linkage",
   "        if idx == 0:",
   "            # First item should have no prev_capture_id",
   "            if prev_capture_id is not None:",
   "                print(f\"FAIL: item[{idx}] prev_capture_id should be null for first item\")",
   "                sys.exit(1)",
   "        else:",
   "            # Subsequent items must have prev_capture_id matching previous item's id",
   "            prev_item_id = items[idx - 1].get(\"id\")",
   "            if prev_capture_id != prev_item_id:",
   "                print(f\"FAIL: item[{idx}] prev_capture_id {prev_capture_id} does not match previous item id {prev_item_id}\")",
   "                sys.exit(1)",
   "        ",
   "        # Recompute chain hash using exact algorithm",
   "        chain_input = \"|\".join([",
   "            prev_capture_id or \"\",",
   "            prev_chain or \"\",",
   "            raw_sha,",
   "            norm_sha,",
   "            captured_at_iso,",
   "            canonical_url,",
   "        ])",
   "        computed_chain = hashlib.sha256(chain_input.encode(\"utf-8\")).hexdigest()",
   "        ",
   "        if computed_chain != chain_sha256:",
   "            print(f\"FAIL: item[{idx}] chain_sha256 mismatch (computed {computed_chain}, expected {chain_sha256})\")",
   "            sys.exit(1)",
   "        ",
   "        prev_chain = chain_sha256",
   "    ",
   "    print(\"PASS: timeline capture hash chain verified\")",
   "    sys.exit(0)",
   "",
   "if __name__ == \"__main__\":",
   "    main()",
   ""]

/-- `verify_py_content`: the embedded verifier's source text, verbatim
(the lines above joined by newlines). -/
def verify_py_content : String := pyJoin "\n" verify_py_lines

/-- `build_proof_pack(source_id, limit=50)`: parse the UUID, resolve the
source, query and order the captures, render `timeline.json`, write the
four entries in the code's order (timeline, methodology, verify,
manifest), stamping each entry header with the build instant's local
time, and run the manifest guard before the manifest is written (its
`isinstance(..., bytes)` checks cannot fire here: every manifest value
is a JSON string or number by construction).  The archive is the entry
list; the second component is the returned filename. -/
def build_proof_pack (sources : List SourceRec) (captures_db : List CaptureRec)
    (now : Now) (source_id : String) (limit : Nat := 50) :
    Except BuildError (List ZipEntry × String) :=
  match parseUUID source_id with
  | none => .error .valueErrorBadUUID
  | some source_uuid =>
    match sources.find? (fun s => s.id == source_uuid &&
        s.org_id == V1_ORG_ID) with
    | none => .error (.valueErrorNotFound
        ("Source " ++ source_id ++ " not found for V1_ORG_ID"))
    | some source =>
      let items := (capturesFor captures_db source_uuid limit).map
        (timelineItem source.canonical_url)
      let zip_filename :=
        "proofpack_" ++ source_id ++ "_" ++ now.stamp ++ ".zip"
      let timeline_bytes :=
        utf8Encode (pyJsonDumpsSortedIndent2 (timelineData source_id items))
      let timeline_sha256 := sha256hex timeline_bytes
      let methodology_bytes := utf8Encode methodology_content
      let methodology_sha256 := sha256hex methodology_bytes
      let verify_py_bytes := utf8Encode verify_py_content
      let verify_py_sha256 := sha256hex verify_py_bytes
      let manifest_data := manifestData source_id now.iso items.length
        timeline_sha256 methodology_sha256 verify_py_sha256
      let manifest_str := pyJsonDumpsSorted manifest_data
      if manifest_str.length < 10000 then
        .ok ([⟨"timeline.json", now.localtime6, timeline_bytes⟩,
              ⟨"methodology.md", now.localtime6, methodology_bytes⟩,
              ⟨"verify.py", now.localtime6, verify_py_bytes⟩,
              ⟨"manifest.json", now.localtime6,
                utf8Encode (pyJsonDumpsSortedIndent2 manifest_data)⟩],
             zip_filename)
      else .error (.assertionError
        "Manifest data too large - may contain file contents")



/-- The four entries a successful build writes, as a function of the
store, the build instant, the caller's `source_id`, the parsed UUID and
the source's canonical URL (the same expressions `build_proof_pack`
assembles). -/
def buildEntriesFor (captures_db : List CaptureRec) (now : Now)
    (source_id : String) (limit : Nat) (u canon : String) : List ZipEntry :=
  let items := (capturesFor captures_db u limit).map (timelineItem canon)
  let timeline_bytes :=
    utf8Encode (pyJsonDumpsSortedIndent2 (timelineData source_id items))
  let methodology_bytes := utf8Encode methodology_content
  let verify_py_bytes := utf8Encode verify_py_content
  [⟨"timeline.json", now.localtime6, timeline_bytes⟩,
   ⟨"methodology.md", now.localtime6, methodology_bytes⟩,
   ⟨"verify.py", now.localtime6, verify_py_bytes⟩,
   ⟨"manifest.json", now.localtime6,
     utf8Encode (pyJsonDumpsSortedIndent2 (manifestData source_id now.iso
       items.length (sha256hex timeline_bytes)
       (sha256hex methodology_bytes) (sha256hex verify_py_bytes)))⟩]

/-- A successful build determines everything: the id parsed, a source row
matched, and the entries and filename are the canonical four-entry
archive. -/
theorem build_ok_elim (sources : List SourceRec)
    (captures_db : List CaptureRec) (now : Now) (source_id : String)
    (limit : Nat) (entries : List ZipEntry) (fname : String)
    (h : build_proof_pack sources captures_db now source_id limit =
      .ok (entries, fname)) :
    ∃ u source, parseUUID source_id = some u ∧
      sources.find? (fun s => s.id == u && s.org_id == V1_ORG_ID) =
        some source ∧
      entries = buildEntriesFor captures_db now source_id limit u
        source.canonical_url ∧
      fname = "proofpack_" ++ source_id ++ "_" ++ now.stamp ++ ".zip" := by
  simp only [build_proof_pack] at h
  split at h
  · simp at h
  · rename_i u hp
    split at h
    · simp at h
    · rename_i source hf
      split at h
      · rename_i hguard
        injection h with h1
        injection h1 with h2 h3
        exact ⟨u, source, hp, hf, h2.symm, h3.symm⟩
      · simp at h

/-- The entries of a successful build (the empty list on an error). -/
def okEntries : Except BuildError (List ZipEntry × String) → List ZipEntry
  | .ok (e, _) => e
  | .error _ => []

/-- The filename of a successful build (empty on an error). -/
def okFilename : Except BuildError (List ZipEntry × String) → String
  | .ok (_, f) => f
  | .error _ => ""

/-- The `i`-th entry of a successful build. -/
def entryAt (r : Except BuildError (List ZipEntry × String)) (i : Nat) :
    ZipEntry :=
  ((okEntries r).get? i).getD ⟨"", (0, 0, 0, 0, 0, 0), []⟩

/-- A build instant. -/
def bldNow1 : Now :=
  ⟨(2024, 1, 2, 3, 4, 5), "2024-01-02T03:04:05+00:00", "20240102T030405Z"⟩

/-- One second later: only the stamped local time and the manifest
timestamp fields differ. -/
def bldNow2 : Now :=
  ⟨(2024, 1, 2, 3, 4, 6), "2024-01-02T03:04:05+00:00", "20240102T030405Z"⟩

/-- A source row for exercising the builder. -/
def bldSource : SourceRec :=
  ⟨"12345678-1234-5678-1234-567812345678", V1_ORG_ID, "http://x/a",
   "http://x/a", true⟩

/-- A capture row of that source. -/
def bldCapture : CaptureRec :=
  ⟨"cap-1", "12345678-1234-5678-1234-567812345678", V1_ORG_ID, none,
   "2024-01-01T00:00:00+00:00", "r", "n", some "c"⟩



/-- C10: `uuid.UUID(source_id)` runs before the database session opens:
an unparsable `source_id` fails with `ValueError` and the store is never
consulted (the result is one constant, whatever the store holds), and
the not-found `ValueError` is reachable only when the id parses and no
source row matches it for the hard-coded org. -/
theorem C10_uuid_parsed_before_read :
    (∀ (sources : List SourceRec) (captures_db : List CaptureRec)
      (now : Now) (source_id : String) (limit : Nat),
      parseUUID source_id = none →
      build_proof_pack sources captures_db now source_id limit =
        .error .valueErrorBadUUID) ∧
    (∀ (sources : List SourceRec) (captures_db : List CaptureRec)
      (now : Now) (source_id : String) (limit : Nat) (msg : String),
      build_proof_pack sources captures_db now source_id limit =
        .error (.valueErrorNotFound msg) →
      ∃ u, parseUUID source_id = some u ∧
        sources.find? (fun s => s.id == u && s.org_id == V1_ORG_ID) =
          none) := by
  constructor
  · intro sources captures_db now source_id limit h
    simp [build_proof_pack, h]
  · intro sources captures_db now source_id limit msg h
    simp only [build_proof_pack] at h
    split at h
    · simp at h
    · rename_i u hp
      split at h
      · exact ⟨u, hp, by assumption⟩
      · split at h
        · simp at h
        · simp at h

/-- Witness for C10: a concrete unparsable id fails identically over a
non-empty store, and a concrete parsable id over an empty store reaches
the not-found error with no matching row. -/
theorem C10_uuid_parsed_before_read_witness :
    build_proof_pack [bldSource] [bldCapture] bldNow1 "not-a-uuid" 50 =
      .error .valueErrorBadUUID ∧
    ∃ u, parseUUID "99999999-9999-4999-8999-999999999999" = some u ∧
      List.find? (fun s => s.id == u && s.org_id == V1_ORG_ID)
        ([] : List SourceRec) = none :=
  ⟨C10_uuid_parsed_before_read.1 [bldSource] [bldCapture] bldNow1
      "not-a-uuid" 50 (by decide),
   C10_uuid_parsed_before_read.2 [] [] bldNow1
      "99999999-9999-4999-8999-999999999999" 50
      "Source 99999999-9999-4999-8999-999999999999 not found for V1_ORG_ID"
      (by decide)⟩

/-- C8 (amended): the archive's entry order is fixed — `timeline.json`,
`methodology.md`, `verify.py`, `manifest.json` — with the manifest last;
but it is not lexicographic by path (`methodology.md` would precede
`timeline.json`). -/
theorem C8_entry_order (sources : List SourceRec)
    (captures_db : List CaptureRec) (now : Now) (source_id : String)
    (limit : Nat) (entries : List ZipEntry) (fname : String)
    (h : build_proof_pack sources captures_db now source_id limit =
      .ok (entries, fname)) :
    entries.map ZipEntry.name =
      ["timeline.json", "methodology.md", "verify.py", "manifest.json"] := by
  obtain ⟨u, source, -, -, he, -⟩ :=
    build_ok_elim sources captures_db now source_id limit entries fname h
  rw [he]
  rfl

/-- C4: each archive entry's header is stamped with the *build instant's*
local time, not a fixed timestamp: a successful build stamps all four
entries with `now`'s local time, while the three non-manifest payloads
are independent of the build instant; hence two builds over an unchanged
store at different local times differ outside the manifest (already at
the `methodology.md` entry), refuting byte-identical-except-manifest
reproducibility. -/
theorem C4_entry_timestamps_track_build_time :
    (∀ (sources : List SourceRec) (captures_db : List CaptureRec)
      (now : Now) (source_id : String) (limit : Nat)
      (entries : List ZipEntry) (fname : String),
      build_proof_pack sources captures_db now source_id limit =
        .ok (entries, fname) →
      entries.map ZipEntry.date_time = List.replicate 4 now.localtime6) ∧
    (∀ (sources : List SourceRec) (captures_db : List CaptureRec)
      (now1 now2 : Now) (source_id : String) (limit : Nat)
      (e1 e2 : List ZipEntry) (f1 f2 : String),
      build_proof_pack sources captures_db now1 source_id limit =
        .ok (e1, f1) →
      build_proof_pack sources captures_db now2 source_id limit =
        .ok (e2, f2) →
      (e1.take 3).map ZipEntry.data = (e2.take 3).map ZipEntry.data) ∧
    (∀ (sources : List SourceRec) (captures_db : List CaptureRec)
      (now1 now2 : Now) (source_id : String) (limit : Nat)
      (e1 e2 : List ZipEntry) (f1 f2 : String),
      build_proof_pack sources captures_db now1 source_id limit =
        .ok (e1, f1) →
      build_proof_pack sources captures_db now2 source_id limit =
        .ok (e2, f2) →
      now1.localtime6 ≠ now2.localtime6 →
      e1.get? 1 ≠ e2.get? 1) := by
  refine ⟨?_, ?_, ?_⟩
  · intro sources captures_db now source_id limit entries fname h
    obtain ⟨u, source, -, -, he, -⟩ :=
      build_ok_elim sources captures_db now source_id limit entries fname h
    rw [he]
    rfl
  · intro sources captures_db now1 now2 source_id limit e1 e2 f1 f2 h1 h2
    obtain ⟨u1, s1, hp1, hf1, he1, -⟩ :=
      build_ok_elim sources captures_db now1 source_id limit e1 f1 h1
    obtain ⟨u2, s2, hp2, hf2, he2, -⟩ :=
      build_ok_elim sources captures_db now2 source_id limit e2 f2 h2
    rw [hp1] at hp2
    injection hp2 with hu
    subst hu
    rw [hf1] at hf2
    injection hf2 with hs
    subst hs
    rw [he1, he2]
    rfl
  · intro sources captures_db now1 now2 source_id limit e1 e2 f1 f2 h1 h2
      hne hcon
    obtain ⟨u1, s1, hp1, hf1, he1, -⟩ :=
      build_ok_elim sources captures_db now1 source_id limit e1 f1 h1
    obtain ⟨u2, s2, hp2, hf2, he2, -⟩ :=
      build_ok_elim sources captures_db now2 source_id limit e2 f2 h2
    have hx1 : e1.get? 1 = some ⟨"methodology.md", now1.localtime6,
        utf8Encode methodology_content⟩ := by
      rw [he1]
      rfl
    have hx2 : e2.get? 1 = some ⟨"methodology.md", now2.localtime6,
        utf8Encode methodology_content⟩ := by
      rw [he2]
      rfl
    rw [hx1, hx2] at hcon
    simp only [Option.some.injEq, ZipEntry.mk.injEq] at hcon
    exact hne hcon.2.1



theorem jsonEscapeChar_length_le (c : Char) : (jsonEscapeChar c).length ≤ 12 := by
  unfold jsonEscapeChar
  split_ifs <;> simp

theorem escFlatten_le (l : List Char) :
    ((l.map jsonEscapeChar).flatten).length ≤ 12 * l.length := by
  induction l with
  | nil => simp
  | cons c t ih =>
      simp only [List.map_cons, List.flatten_cons, List.length_append,
        List.length_cons]
      have := jsonEscapeChar_length_le c
      omega

theorem jsonQuote_length_le (s : String) :
    (jsonQuote s).length ≤ 12 * s.length + 2 := by
  have h1 := escFlatten_le s.toList
  have h2 : s.toList.length = s.length := rfl
  simp only [jsonQuote, List.length_cons, List.length_append]
  simp only [List.length_cons, List.length_nil]
  omega

theorem jsonEscapeChar_of_mem_hex (c : Char) (h : c ∈ lowerHexChars) :
    jsonEscapeChar c = [c] := by
  fin_cases h <;> rfl

theorem escFlatten_eq (l : List Char) (h : ∀ c ∈ l, jsonEscapeChar c = [c]) :
    (l.map jsonEscapeChar).flatten = l := by
  induction l with
  | nil => rfl
  | cons c t ih =>
      simp only [List.map_cons, List.flatten_cons]
      rw [h c (List.mem_cons_self c t),
        ih (fun x hx => h x (List.mem_cons_of_mem c hx))]
      rfl

/-- Quoting a digest costs exactly 66 characters: no hex character is
escaped. -/
theorem jsonQuote_sha_length (msg : List Nat) :
    (jsonQuote (sha256hex msg)).length = 66 := by
  have he := escFlatten_eq (sha256hex msg).toList
    (fun c hc => jsonEscapeChar_of_mem_hex c (sha256hex_lower msg c hc))
  have hl : (sha256hex msg).toList.length = 64 := sha256hex_length msg
  simp only [jsonQuote, he, List.length_cons, List.length_append, hl,
    List.length_nil]

theorem repr_len_le_two (n : Nat) (h : n ≤ 50) :
    (Nat.repr n).toList.length ≤ 2 := by
  interval_cases n <;> decide

/-- The character count of the compact, key-sorted manifest dump as a
function of its variable parts. -/
theorem manifestData_dumps_length (sid iso t m v : String) (n : Nat) :
    (pyJsonDumpsSorted (manifestData sid iso n t m v)).length =
      200 + (Nat.repr n).toList.length + (jsonQuote t).length +
      (jsonQuote m).length + (jsonQuote v).length +
      (jsonQuote iso).length + (jsonQuote sid).length := by
  show (dumpsC (sortJVal (manifestData sid iso n t m v))).length = _
  rw [show sortJVal (manifestData sid iso n t m v) = JVal.jobj
    [("capture_count", .jnum n),
     ("files", .jarr [
        .jobj [("path", .jstr "timeline.json"), ("sha256", .jstr t)],
        .jobj [("path", .jstr "methodology.md"), ("sha256", .jstr m)],
        .jobj [("path", .jstr "verify.py"), ("sha256", .jstr v)]]),
     ("generated_at", .jstr iso),
     ("hash_algo", .jstr "sha256"),
     ("source_id", .jstr sid)] from rfl]
  simp only [
    show ∀ f, dumpsC (JVal.jobj f) = Char.ofNat 123 ::
        (jjoin [',', ' '] (f.map (fun kv =>
          jsonQuote kv.1 ++ ':' :: ' ' :: dumpsCF 7 kv.2)) ++
          [Char.ofNat 125]) from fun _ => rfl,
    show ∀ s, dumpsCF 7 (JVal.jstr s) = jsonQuote s from fun _ => rfl,
    show ∀ k, dumpsCF 7 (JVal.jnum k) = (Nat.repr k).toList from
      fun _ => rfl,
    show ∀ l, dumpsCF 7 (JVal.jarr l) =
        '[' :: (jjoin [',', ' '] (l.map (dumpsCF 6)) ++ [']']) from
      fun _ => rfl,
    show ∀ f, dumpsCF 6 (JVal.jobj f) = Char.ofNat 123 ::
        (jjoin [',', ' '] (f.map (fun kv =>
          jsonQuote kv.1 ++ ':' :: ' ' :: dumpsCF 5 kv.2)) ++
          [Char.ofNat 125]) from fun _ => rfl,
    show ∀ s, dumpsCF 5 (JVal.jstr s) = jsonQuote s from fun _ => rfl,
    List.map, jjoin, List.length_append, List.length_cons, List.length_nil,
    show (jsonQuote "capture_count").length = 15 from by decide,
    show (jsonQuote "files").length = 7 from by decide,
    show (jsonQuote "generated_at").length = 14 from by decide,
    show (jsonQuote "hash_algo").length = 11 from by decide,
    show (jsonQuote "source_id").length = 11 from by decide,
    show (jsonQuote "sha256").length = 8 from by decide,
    show (jsonQuote "path").length = 6 from by decide,
    show (jsonQuote "timeline.json").length = 15 from by decide,
    show (jsonQuote "methodology.md").length = 16 from by decide,
    show (jsonQuote "verify.py").length = 11 from by decide]
  omega



/-- After a parsed id and a matched source, the build reduces to the
manifest guard's test. -/
theorem build_eval (sources : List SourceRec) (captures_db : List CaptureRec)
    (now : Now) (source_id : String) (limit : Nat) (u : String)
    (source : SourceRec)
    (hp : parseUUID source_id = some u)
    (hf : sources.find? (fun s => s.id == u && s.org_id == V1_ORG_ID) =
      some source) :
    build_proof_pack sources captures_db now source_id limit =
      if (pyJsonDumpsSorted (manifestData source_id now.iso
            ((capturesFor captures_db u limit).map
              (timelineItem source.canonical_url)).length
            (sha256hex (utf8Encode (pyJsonDumpsSortedIndent2
              (timelineData source_id ((capturesFor captures_db u limit).map
                (timelineItem source.canonical_url))))))
            (sha256hex (utf8Encode methodology_content))
            (sha256hex (utf8Encode verify_py_content)))).length < 10000
      then .ok (buildEntriesFor captures_db now source_id limit u
            source.canonical_url,
          "proofpack_" ++ source_id ++ "_" ++ now.stamp ++ ".zip")
      else .error (.assertionError
        "Manifest data too large - may contain file contents") := by
  simp only [build_proof_pack, buildEntriesFor, hp, hf]

/-- The caller's id used by the concrete builds below. -/
def bldSid : String := "12345678-1234-5678-1234-567812345678"

/-- A concrete build succeeds whenever the build instant's ISO text is
short; its result in closed form. -/
theorem bld_build_ok (now : Now) (hiso : (jsonQuote now.iso).length ≤ 100) :
    build_proof_pack [bldSource] [bldCapture] now bldSid 50 =
      .ok (buildEntriesFor [bldCapture] now bldSid 50 bldSid "http://x/a",
        "proofpack_" ++ bldSid ++ "_" ++ now.stamp ++ ".zip") := by
  have hg : (pyJsonDumpsSorted (manifestData bldSid now.iso
      ((capturesFor [bldCapture] bldSid 50).map
        (timelineItem "http://x/a")).length
      (sha256hex (utf8Encode (pyJsonDumpsSortedIndent2
        (timelineData bldSid ((capturesFor [bldCapture] bldSid 50).map
          (timelineItem "http://x/a"))))))
      (sha256hex (utf8Encode methodology_content))
      (sha256hex (utf8Encode verify_py_content)))).length < 10000 := by
    rw [manifestData_dumps_length, jsonQuote_sha_length,
      jsonQuote_sha_length, jsonQuote_sha_length,
      show ((capturesFor [bldCapture] bldSid 50).map
        (timelineItem "http://x/a")).length = 1 from by decide,
      show (jsonQuote bldSid).length = 38 from by decide]
    have : ((Nat.repr 1).toList.length) = 1 := by decide
    omega
  have he := build_eval [bldSource] [bldCapture] now bldSid 50 bldSid
    bldSource (by decide) (by decide)
  rw [he, show bldSource.canonical_url = "http://x/a" from rfl, if_pos hg]



/-- Witness for C8: the entry order of a concrete successful build. -/
theorem C8_entry_order_witness :
    (buildEntriesFor [bldCapture] bldNow1 bldSid 50 bldSid
        "http://x/a").map ZipEntry.name =
      ["timeline.json", "methodology.md", "verify.py", "manifest.json"] :=
  C8_entry_order [bldSource] [bldCapture] bldNow1 bldSid 50
    (buildEntriesFor [bldCapture] bldNow1 bldSid 50 bldSid "http://x/a")
    ("proofpack_" ++ bldSid ++ "_" ++ bldNow1.stamp ++ ".zip")
    (bld_build_ok bldNow1 (by decide))

/-- C8 counterexample: the concrete build's entry order is not the
lexicographic-by-path order the claim states — `timeline.json` is
written before `methodology.md`. -/
theorem C8_entry_order_counterexample :
    (buildEntriesFor [bldCapture] bldNow1 bldSid 50 bldSid
        "http://x/a").map ZipEntry.name ≠
      ["methodology.md", "timeline.json", "verify.py", "manifest.json"] := by
  decide

/-- Witness for C4: at two concrete build instants one second apart over
the same store, the stamped headers follow each instant and the
`methodology.md` entries differ. -/
theorem C4_entry_timestamps_track_build_time_witness :
    (buildEntriesFor [bldCapture] bldNow1 bldSid 50 bldSid
        "http://x/a").map ZipEntry.date_time =
      List.replicate 4 bldNow1.localtime6 ∧
    (buildEntriesFor [bldCapture] bldNow1 bldSid 50 bldSid
        "http://x/a").get? 1 ≠
      (buildEntriesFor [bldCapture] bldNow2 bldSid 50 bldSid
        "http://x/a").get? 1 :=
  ⟨C4_entry_timestamps_track_build_time.1 [bldSource] [bldCapture] bldNow1
      bldSid 50
      (buildEntriesFor [bldCapture] bldNow1 bldSid 50 bldSid "http://x/a")
      ("proofpack_" ++ bldSid ++ "_" ++ bldNow1.stamp ++ ".zip")
      (bld_build_ok bldNow1 (by decide)),
   C4_entry_timestamps_track_build_time.2.2 [bldSource] [bldCapture]
      bldNow1 bldNow2 bldSid 50
      (buildEntriesFor [bldCapture] bldNow1 bldSid 50 bldSid "http://x/a")
      (buildEntriesFor [bldCapture] bldNow2 bldSid 50 bldSid "http://x/a")
      ("proofpack_" ++ bldSid ++ "_" ++ bldNow1.stamp ++ ".zip")
      ("proofpack_" ++ bldSid ++ "_" ++ bldNow2.stamp ++ ".zip")
      (bld_build_ok bldNow1 (by decide)) (bld_build_ok bldNow2 (by decide))
      (by decide)⟩

/-- C9 (amended): with the default capture limit, the manifest lists a
digest entry for every archive file except `manifest.json` itself (the
three digests recompute from the entry payloads), and the size guard
asserted before the manifest is written cannot fire *provided* the
caller's `source_id` and the timestamp are of ordinary length — the
manifest embeds the caller's string verbatim, so the guard is reachable
(see the counterexample). -/
theorem C9_manifest_guard :
    (∀ (sources : List SourceRec) (captures_db : List CaptureRec)
      (now : Now) (source_id : String),
      source_id.length ≤ 700 → now.iso.length ≤ 40 →
      ∀ msg, build_proof_pack sources captures_db now source_id 50 ≠
        .error (.assertionError msg)) ∧
    (∀ (sources : List SourceRec) (captures_db : List CaptureRec)
      (now : Now) (source_id u : String) (limit : Nat)
      (e0 e1 e2 e3 : ZipEntry) (fname : String),
      parseUUID source_id = some u →
      build_proof_pack sources captures_db now source_id limit =
        .ok ([e0, e1, e2, e3], fname) →
      e3.name = "manifest.json" ∧
      e3.data = utf8Encode (pyJsonDumpsSortedIndent2 (manifestData source_id
        now.iso (capturesFor captures_db u limit).length
        (sha256hex e0.data) (sha256hex e1.data) (sha256hex e2.data)))) := by
  constructor
  · intro sources captures_db now source_id hsid hiso msg hcon
    simp only [build_proof_pack] at hcon
    split at hcon
    · simp at hcon
    · rename_i u hp
      split at hcon
      · simp at hcon
      · rename_i source hf
        split at hcon
        · simp at hcon
        · rename_i hguard
          apply hguard
          rw [manifestData_dumps_length, jsonQuote_sha_length,
            jsonQuote_sha_length, jsonQuote_sha_length]
          have h1 := jsonQuote_length_le source_id
          have h2 := jsonQuote_length_le now.iso
          have h3 : ((capturesFor captures_db u 50).map
              (timelineItem source.canonical_url)).length ≤ 50 := by
            rw [List.length_map]
            exact List.length_take_le _ _
          have h4 := repr_len_le_two _ h3
          omega
  · intro sources captures_db now source_id u limit e0 e1 e2 e3 fname hp h
    obtain ⟨u2, source, hp2, hf, he, -⟩ :=
      build_ok_elim sources captures_db now source_id limit
        [e0, e1, e2, e3] fname h
    rw [hp] at hp2
    injection hp2 with hu
    subst hu
    simp only [buildEntriesFor] at he
    injection he with h0 he
    injection he with h1 he
    injection he with h2 he
    injection he with h3 htail
    subst h0
    subst h1
    subst h2
    subst h3
    refine ⟨rfl, ?_⟩
    show utf8Encode (pyJsonDumpsSortedIndent2 (manifestData source_id
      now.iso ((capturesFor captures_db u limit).map
        (timelineItem source.canonical_url)).length _ _ _)) = _
    rw [List.length_map]

/-- The timeline items of the concrete build below. -/
def bldItems : List JVal :=
  (capturesFor [bldCapture] bldSid 50).map (timelineItem "http://x/a")

/-- The concrete build's `timeline.json` entry. -/
def bldE0 : ZipEntry :=
  ⟨"timeline.json", bldNow1.localtime6,
    utf8Encode (pyJsonDumpsSortedIndent2 (timelineData bldSid bldItems))⟩

/-- The concrete build's `methodology.md` entry. -/
def bldE1 : ZipEntry :=
  ⟨"methodology.md", bldNow1.localtime6, utf8Encode methodology_content⟩

/-- The concrete build's `verify.py` entry. -/
def bldE2 : ZipEntry :=
  ⟨"verify.py", bldNow1.localtime6, utf8Encode verify_py_content⟩

/-- The concrete build's `manifest.json` entry. -/
def bldE3 : ZipEntry :=
  ⟨"manifest.json", bldNow1.localtime6,
    utf8Encode (pyJsonDumpsSortedIndent2 (manifestData bldSid bldNow1.iso
      bldItems.length (sha256hex bldE0.data) (sha256hex bldE1.data)
      (sha256hex bldE2.data)))⟩

/-- Witness for C9: the guard does not fire on a concrete ordinary
build, and the concrete manifest entry covers the other three files'
digests. -/
theorem C9_manifest_guard_witness :
    build_proof_pack [bldSource] [bldCapture] bldNow1 bldSid 50 ≠
      .error (.assertionError
        "Manifest data too large - may contain file contents") ∧
    (bldE3.name = "manifest.json" ∧
      bldE3.data = utf8Encode (pyJsonDumpsSortedIndent2 (manifestData
        bldSid bldNow1.iso (capturesFor [bldCapture] bldSid 50).length
        (sha256hex bldE0.data) (sha256hex bldE1.data)
        (sha256hex bldE2.data)))) :=
  ⟨C9_manifest_guard.1 [bldSource] [bldCapture] bldNow1 bldSid (by decide)
      (by decide) "Manifest data too large - may contain file contents",
   C9_manifest_guard.2 [bldSource] [bldCapture] bldNow1 bldSid bldSid 50
      bldE0 bldE1 bldE2 bldE3
      ("proofpack_" ++ bldSid ++ "_" ++ bldNow1.stamp ++ ".zip")
      (by decide) (bld_build_ok bldNow1 (by decide))⟩



theorem replaceGo_head_not_mem (p : Char) (ps : List Char) (fuel : Nat)
    (l : List Char) (h : p ∉ l) : replaceGo (p :: ps) fuel l = l := by
  induction fuel generalizing l with
  | zero => cases l <;> rfl
  | succ fuel ih =>
      cases l with
      | nil => rfl
      | cons c t =>
          have hne : ¬((c :: t).take (p :: ps).length = p :: ps) := by
            intro hc
            simp only [List.length_cons, List.take_succ_cons] at hc
            injection hc with hch htl
            exact h (hch ▸ List.mem_cons_self c t)
          rw [replaceGo, if_neg hne,
            ih t (fun hm => h (List.mem_cons_of_mem c hm))]

theorem stripSet_no_mem (cs l : List Char)
    (h : ∀ c ∈ l, cs.contains c = false) : stripSet cs l = l := by
  have h1 : l.dropWhile (fun c => cs.contains c) = l := by
    cases l with
    | nil => rfl
    | cons c t =>
        rw [List.dropWhile_cons,
          if_neg (by rw [h c (List.mem_cons_self c t)]
                     exact Bool.false_ne_true)]
  rw [stripSet, h1]
  have h2 : l.reverse.dropWhile (fun c => cs.contains c) = l.reverse := by
    cases hr : l.reverse with
    | nil => rfl
    | cons c t =>
        have hc : c ∈ l := by
          have hm : c ∈ l.reverse := by
            rw [hr]
            exact List.mem_cons_self c t
          exact List.mem_reverse.mp hm
        rw [List.dropWhile_cons,
          if_neg (by rw [h c hc]; exact Bool.false_ne_true)]
  rw [h2, List.reverse_reverse]

theorem replaceGo_dash_replicate (n : Nat) (fuel : Nat) (rest : List Char)
    (hfuel : n ≤ fuel) (hrest : '-' ∉ rest) :
    replaceGo ['-'] fuel (List.replicate n '-' ++ rest) = rest := by
  induction n generalizing fuel with
  | zero =>
      rw [List.replicate, List.nil_append]
      exact replaceGo_head_not_mem '-' [] fuel rest hrest
  | succ n ih =>
      cases fuel with
      | zero => omega
      | succ fuel =>
          rw [List.replicate_succ, List.cons_append, replaceGo,
            if_pos (show ('-' :: (List.replicate n '-' ++ rest)).take
              (['-'] : List Char).length = ['-'] from rfl)]
          rw [show List.drop (['-'] : List Char).length
            ('-' :: (List.replicate n '-' ++ rest)) =
            List.replicate n '-' ++ rest from rfl]
          exact ih fuel (by omega)

/-- Thirty-two zero hex digits. -/
def bigZeros : List Char := String.toList "00000000000000000000000000000000"

/-- A `source_id` that `uuid.UUID` accepts (dashes are removed wherever
they stand) but whose text overflows the manifest guard. -/
def bigChars : List Char := List.replicate 10000 '-' ++ bigZeros

/-- That id as a string. -/
def bigSid : String := String.mk bigChars

/-- The all-zero source row the dash-padded id resolves to. -/
def bigSource : SourceRec :=
  ⟨"00000000-0000-0000-0000-000000000000", V1_ORG_ID, "u", "u", true⟩

theorem u_not_mem_bigChars : 'u' ∉ bigChars := by
  intro hm
  rcases List.mem_append.mp hm with hm | hm
  · exact absurd (List.eq_of_mem_replicate hm) (by decide)
  · exact absurd hm (by decide)

theorem parseUUID_bigSid :
    parseUUID bigSid = some "00000000-0000-0000-0000-000000000000" := by
  have e1 : removeAll "urn:".toList bigSid.toList = bigChars :=
    replaceGo_head_not_mem 'u' _ _ _ u_not_mem_bigChars
  have e2 : removeAll "uuid:".toList bigChars = bigChars :=
    replaceGo_head_not_mem 'u' _ _ _ u_not_mem_bigChars
  have e3 : stripSet [Char.ofNat 123, Char.ofNat 125] bigChars = bigChars := by
    apply stripSet_no_mem
    intro c hc
    rcases List.mem_append.mp hc with hm | hm
    · rw [List.eq_of_mem_replicate hm]
      decide
    · fin_cases hm <;> decide
  have e4 : removeAll "-".toList bigChars = bigZeros := by
    show replaceGo ['-'] bigChars.length (List.replicate 10000 '-' ++
      bigZeros) = bigZeros
    apply replaceGo_dash_replicate 10000 bigChars.length bigZeros
    · have hlen : bigChars.length = 10032 := by
        rw [bigChars, List.length_append, List.length_replicate]
        decide
      omega
    · decide
  simp only [parseUUID, e1, e2, e3, e4]
  decide

theorem bigChars_escape_free : ∀ c ∈ bigChars, jsonEscapeChar c = [c] := by
  intro c hc
  rcases List.mem_append.mp hc with hm | hm
  · rw [List.eq_of_mem_replicate hm]
    decide
  · fin_cases hm <;> decide

theorem jsonQuote_bigSid_length : (jsonQuote bigSid).length = 10034 := by
  have he := escFlatten_eq bigSid.toList bigChars_escape_free
  have hl : bigSid.toList.length = 10032 := by
    show bigChars.length = 10032
    rw [bigChars, List.length_append, List.length_replicate]
    decide
  simp only [jsonQuote, he, List.length_cons, List.length_append, hl,
    List.length_nil]

/-- C9 counterexample: a dash-padded `source_id` is a syntactically
valid UUID for `uuid.UUID`, yet the manifest embeds the caller's string
verbatim, so the size guard fires and the build raises its
`AssertionError` — with the default limit and an empty capture store. -/
theorem C9_manifest_guard_counterexample :
    build_proof_pack [bigSource] [] bldNow1 bigSid 50 =
      .error (.assertionError
        "Manifest data too large - may contain file contents") := by
  have hf : [bigSource].find? (fun s =>
      s.id == "00000000-0000-0000-0000-000000000000" &&
      s.org_id == V1_ORG_ID) = some bigSource := by decide
  have hcond : ¬((pyJsonDumpsSorted (manifestData bigSid bldNow1.iso
      ((capturesFor [] "00000000-0000-0000-0000-000000000000" 50).map
        (timelineItem "u")).length
      (sha256hex (utf8Encode (pyJsonDumpsSortedIndent2
        (timelineData bigSid ((capturesFor []
          "00000000-0000-0000-0000-000000000000" 50).map
          (timelineItem "u"))))))
      (sha256hex (utf8Encode methodology_content))
      (sha256hex (utf8Encode verify_py_content)))).length < 10000) := by
    intro hcon
    rw [manifestData_dumps_length, jsonQuote_sha_length,
      jsonQuote_sha_length, jsonQuote_sha_length,
      jsonQuote_bigSid_length] at hcon
    omega
  rw [build_eval [bigSource] [] bldNow1 bigSid 50
      "00000000-0000-0000-0000-000000000000" bigSource parseUUID_bigSid hf,
    show bigSource.canonical_url = "u" from rfl, if_neg hcond]


end SourceRecord
